import Mathlib

/-!
Verification of the decoder core of `src/decoder/mod.rs` (a PNG decoder's
row-assembly and transformation pipeline).  The definitions below are a
shallow embedding of the Rust source; collaborators that live outside the
given source tree (`common.rs`, `utils.rs`, `filter.rs`, `stream.rs`) are
modelled from the specification, as marked in their doc comments.
Bytes are modelled as `Nat` with explicit `% 256` where the source wraps.
-/

namespace PngCore

/-- Color types of the PNG header (`common::ColorType`, shape given in the
spec's data model, §3). -/
inductive ColorType
  | grayscale
  | rgb
  | indexed
  | grayscaleAlpha
  | rgba
deriving DecidableEq, Repr

/-- Modelled from the spec: `common::ColorType::samples` (common.rs is not
part of the given sources); the channel count of each color type, §3. -/
def ColorType.samples : ColorType → Nat
  | .grayscale => 1
  | .rgb => 3
  | .indexed => 1
  | .grayscaleAlpha => 2
  | .rgba => 4

/-- The transformation flags consulted by this core (spec §3): EXPAND,
STRIP_16 and SCALE_16.  IDENTITY is the empty set. -/
structure Transformations where
  expand : Bool
  strip_16 : Bool
  scale_16 : Bool
deriving DecidableEq, Repr

/-- `TRANSFORM_IDENTITY`: the empty flag set. -/
def Transformations.identity : Transformations := ⟨false, false, false⟩

/-- `t.intersects(TRANSFORM_SCALE_16 | TRANSFORM_STRIP_16)`. -/
def Transformations.scaleOrStrip (t : Transformations) : Bool :=
  t.strip_16 || t.scale_16

/-- The parsed image header (`common::Info`), immutable after parse (§3). -/
structure Info where
  width : Nat
  height : Nat
  color_type : ColorType
  bit_depth : Nat
  interlaced : Bool
  palette : Option (List Nat)
  trns : Option (List Nat)
deriving DecidableEq, Repr

/-- Modelled from the spec: `Info::bits_per_pixel` (common.rs is not part of
the given sources); samples times bit depth. -/
def Info.bits_per_pixel (i : Info) : Nat := i.color_type.samples * i.bit_depth

/-- Modelled from the spec: `Info::bytes_per_pixel` (common.rs is not part of
the given sources); the glossary defines the filter stride as
`ceil(bits_per_pixel / 8)`, minimum 1. -/
def Info.bytes_per_pixel (i : Info) : Nat := max 1 ((i.bits_per_pixel + 7) / 8)

/-- Modelled from the spec: `Info::raw_row_length_from_width` (common.rs is
not part of the given sources); §4.5 gives
`ceil(pass_width * bits_per_pixel / 8) + 1` (the `+ 1` is the filter byte). -/
def Info.raw_row_length_from_width (i : Info) (w : Nat) : Nat :=
  (w * i.bits_per_pixel + 7) / 8 + 1

/-- Modelled from the spec: `Info::raw_row_length` (common.rs is not part of
the given sources); the raw row length at the full image width. -/
def Info.raw_row_length (i : Info) : Nat := i.raw_row_length_from_width i.width

/-- `Reader::line_size` (mod.rs lines 328-350): bytes required to decode a
deinterlaced row of `width` pixels, before any 16-bit reduction. -/
def line_size (t : Transformations) (info : Info) (width : Nat) : Nat :=
  let trns := info.trns.isSome
  let choice :=
    if info.color_type = .indexed ∧ trns ∧ t.expand then 4 * 8
    else if info.color_type = .indexed ∧ t.expand then 3 * 8
    else if info.color_type = .rgb ∧ trns ∧ t.expand then 4 * 8
    else if info.color_type = .grayscale ∧ trns ∧ t.expand then 2 * 8
    else if info.color_type = .grayscale ∧ t.expand then 1 * 8
    else if info.color_type = .grayscaleAlpha ∧ t.expand then 2 * 8
    else if info.bit_depth = 16 then info.bits_per_pixel / 2
    else info.bits_per_pixel
  let bits := choice * width * (if info.bit_depth = 16 then 2 else 1)
  let len := bits / 8
  let extra := bits % 8
  len + (if extra = 0 then 0 else 1)

/-- `Reader::output_line_size` (mod.rs lines 316-325). -/
def output_line_size (t : Transformations) (info : Info) (width : Nat) : Nat :=
  let size := line_size t info width
  if info.bit_depth = 16 ∧ t.scaleOrStrip then size / 2 else size

/-- `Reader::output_buffer_size` (mod.rs lines 309-313). -/
def output_buffer_size (t : Transformations) (info : Info) : Nat :=
  output_line_size t info info.width * info.height

/-- `Reader::output_color_type` (mod.rs lines 277-305).  The bit depth is
returned as its numeric value (`BitDepth::from_u8` only tags it). -/
def output_color_type (t : Transformations) (info : Info) : ColorType × Nat :=
  if t = .identity then (info.color_type, info.bit_depth)
  else
    let bits :=
      if info.bit_depth = 16 ∧ t.scaleOrStrip then 8
      else if t.expand then 8
      else info.bit_depth
    let has_trns := info.trns.isSome
    let color_type :=
      if t.expand then
        match info.color_type with
        | .grayscale => if has_trns then ColorType.grayscaleAlpha else .grayscale
        | .rgb => if has_trns then ColorType.rgba else .rgb
        | .indexed => if has_trns then ColorType.rgba else .rgb
        | ct => ct
      else info.color_type
    (color_type, bits)

/-- The output shape exactly as claim C2 words it: with EXPAND, Indexed+trns
becomes RGBA, Indexed without trns RGB, Grayscale+trns GrayscaleAlpha,
RGB+trns RGBA, all else unchanged; bit depth 8 if EXPAND, else 8 if the
original was 16 and STRIP_16 or SCALE_16 is set, else unchanged; IDENTITY
passes both through. -/
def output_color_type_claimed (t : Transformations) (info : Info) : ColorType × Nat :=
  if t = .identity then (info.color_type, info.bit_depth)
  else
    let has_trns := info.trns.isSome
    let color_type :=
      if t.expand then
        match info.color_type, has_trns with
        | .indexed, true => ColorType.rgba
        | .indexed, false => ColorType.rgb
        | .grayscale, true => ColorType.grayscaleAlpha
        | .rgb, true => ColorType.rgba
        | ct, _ => ct
      else info.color_type
    let bits :=
      if t.expand then 8
      else if info.bit_depth = 16 ∧ t.scaleOrStrip then 8
      else info.bit_depth
    (color_type, bits)

/-! ## Filter reversal (modelled from spec §4.1; filter.rs is not part of the
given sources) -/

/-- Modelled from the spec: the Paeth predictor (§4.1): whichever of a, b, c
minimizes |p − v| with p = a + b − c, ties broken in order a, b, c. -/
def paeth_predictor (a b c : Nat) : Nat :=
  let p : Int := (a : Int) + b - c
  let pa := (p - a).natAbs
  let pb := (p - b).natAbs
  let pc := (p - c).natAbs
  if pa ≤ pb ∧ pa ≤ pc then a else if pb ≤ pc then b else c

/-- Modelled from the spec: one byte of filter reversal (§4.1), with `a` the
already-reconstructed byte `bpp` to the left, `b` the previous-row byte, `c`
the previous-row byte `bpp` to the left; additions are modulo 256. -/
def unfilter_byte (ft bpp : Nat) (prev out : List Nat) (i x : Nat) : Nat :=
  let a := if bpp ≤ i then out.getD (i - bpp) 0 else 0
  let b := prev.getD i 0
  let c := if bpp ≤ i then prev.getD (i - bpp) 0 else 0
  match ft with
  | 0 => x
  | 1 => (x + a) % 256
  | 2 => (x + b) % 256
  | 3 => (x + (a + b) / 2) % 256
  | _ => (x + paeth_predictor a b c) % 256

/-- Helper for `unfilter`: reconstructs bytes left to right, accumulating the
already-reconstructed prefix in `out`. -/
def unfilter_go (ft bpp : Nat) (prev : List Nat) (out : List Nat) : List Nat → List Nat
  | [] => out
  | x :: rest => unfilter_go ft bpp prev (out ++ [unfilter_byte ft bpp prev out out.length x]) rest

/-- Modelled from the spec: `filter::unfilter` (§4.1); reverses one filter
type over a row (excluding the filter-type byte) against the previous row. -/
def unfilter (ft bpp : Nat) (prev cur : List Nat) : List Nat :=
  unfilter_go ft bpp prev [] cur

theorem unfilter_go_length (ft bpp : Nat) (prev : List Nat) :
    ∀ cur out, (unfilter_go ft bpp prev out cur).length = out.length + cur.length := by
  intro cur
  induction cur with
  | nil => intro out; simp [unfilter_go]
  | cons x rest ih =>
    intro out
    simp [unfilter_go, ih]
    omega

theorem unfilter_length (ft bpp : Nat) (prev cur : List Nat) :
    (unfilter ft bpp prev cur).length = cur.length := by
  simp [unfilter, unfilter_go_length]

/-! ## Adam7 iterator (modelled from spec §4.3; utils.rs is not part of the
given sources) -/

/-- Modelled from the spec: the Adam7 starting offsets and strides
(x_start, y_start, x_stride, y_stride) for passes 1..7 (§4.3). -/
def passConsts (p : Nat) : Nat × Nat × Nat × Nat :=
  if p = 1 then (0, 0, 8, 8)
  else if p = 2 then (4, 0, 8, 8)
  else if p = 3 then (0, 4, 4, 8)
  else if p = 4 then (2, 0, 4, 4)
  else if p = 5 then (0, 2, 2, 4)
  else if p = 6 then (1, 0, 2, 2)
  else if p = 7 then (0, 1, 1, 2)
  else (0, 0, 1, 1)

/-- Modelled from the spec: the pixel width of pass `p` (§4.3):
`ceil((image_width − x_start) / x_stride)` when `image_width > x_start`,
else 0 (the pass is skipped). -/
def passWidth (w p : Nat) : Nat :=
  let c := passConsts p
  if c.1 < w then (w - c.1 + c.2.2.1 - 1) / c.2.2.1 else 0

/-- Modelled from the spec: the row count of pass `p`, analogously to
`passWidth` (§4.3: `line` ranges over `0..pass_height`). -/
def passHeight (h p : Nat) : Nat :=
  let c := passConsts p
  if c.2.1 < h then (h - c.2.1 + c.2.2.2 - 1) / c.2.2.2 else 0

/-- Modelled from the spec: `utils::Adam7Iterator` (§3, §4.3); exposes the
current pass so the row driver can detect pass transitions. -/
structure Adam7 where
  width : Nat
  height : Nat
  currentPass : Nat
  line : Nat
deriving DecidableEq, Repr

/-- Modelled from the spec: a fresh Adam7 iterator; passes are numbered
1..=7 (§3), so iteration starts at pass 1 with no line yielded yet. -/
def Adam7.new (w h : Nat) : Adam7 := ⟨w, h, 1, 0⟩

/-- Work loop of `Adam7.next`; the fuel argument bounds the number of pass
advances (at most 7 passes exist). -/
def adam7NextGo (w h : Nat) : Nat → Nat → Nat → Option ((Nat × Nat × Nat) × Adam7)
  | 0, _, _ => none
  | f + 1, p, line =>
    if 7 < p then none
    else if line < passHeight h p ∧ 0 < passWidth w p then
      some ((p, line, passWidth w p), ⟨w, h, p, line + 1⟩)
    else if p < 7 then adam7NextGo w h f (p + 1) 0
    else none

/-- Modelled from the spec: `Adam7Iterator::next` (§4.3): yield
(pass, line, pass width), skipping empty passes entirely. -/
def Adam7.next (a : Adam7) : Option ((Nat × Nat × Nat) × Adam7) :=
  adam7NextGo a.width a.height (8 - a.currentPass) a.currentPass a.line

/-! ## The row driver (`Reader`, mod.rs lines 97-472) -/

/-- The error type surfaced by the decoder (`DecodingError`), restricted to
the variants this core produces or forwards (spec §7). -/
inductive DecodingError
  | ioError
  | format (msg : String)
  | other (msg : String)
deriving DecidableEq, Repr

/-- An outcome of running decoder code: a value, a `DecodingError`, or a
Rust panic (which the source reserves for slips such as a missing palette). -/
inductive Failure
  | dec (e : DecodingError)
  | panicked
deriving DecidableEq, Repr

/-- Errors the upstream `decode_next` driver can forward: I/O errors from the
reader and parser-level format errors (spec §7 lists no `Other` among them). -/
inductive UpstreamError
  | ioErr
  | formatErr (msg : String)
deriving DecidableEq, Repr

def UpstreamError.toDecodingError : UpstreamError → DecodingError
  | .ioErr => .ioError
  | .formatErr m => .format m

/-- One outcome of a `decode_next` pull as seen by the row assembly loop
(mod.rs lines 449-469): an inflated image-data fragment, some other event
(ignored), or a forwarded error.  End of image data (`Ok(None)`) is the end
of the event list. -/
inductive DecEvent
  | imageData (data : List Nat)
  | otherEvent
  | failed (e : UpstreamError)
deriving DecidableEq, Repr

/-- The image-data bytes carried by a list of events, in order. -/
def eventsData : List DecEvent → List Nat
  | [] => []
  | .imageData d :: r => d ++ eventsData r
  | .otherEvent :: r => eventsData r
  | .failed _ :: r => eventsData r

/-- True when the event list contains no forwarded error. -/
def noFailed (evs : List DecEvent) : Bool :=
  evs.all fun e => match e with
    | .failed _ => false
    | _ => true

/-- Result of the row assembly loop, carrying the buffers as the loop leaves
them. -/
inductive RowLoopResult
  | yielded (row prev cur : List Nat) (evs : List DecEvent)
  | badFilter (n : Nat) (prev cur : List Nat) (evs : List DecEvent)
  | upstreamFailed (e : UpstreamError) (prev cur : List Nat) (evs : List DecEvent)
  | truncated (prev cur : List Nat)
  | cleanEnd (prev : List Nat)
deriving DecidableEq, Repr

/-- Row consumption once `current.len() >= rowlen` (mod.rs lines 431-447):
check the filter byte (`FilterType::from_u8` accepts 0..=4, modelled from
spec §4.1), unfilter `current[1..rowlen]` against `prev[1..rowlen]`, copy
`current[..rowlen]` into `prev[..rowlen]`, drop the consumed prefix of
`current` and yield `prev[1..rowlen]`. -/
def assembleRow (rowlen bpp : Nat) (prev cur : List Nat) (evs : List DecEvent) : RowLoopResult :=
  let f := cur.headD 0
  if f ≤ 4 then
    let body := unfilter f bpp ((prev.drop 1).take (rowlen - 1)) ((cur.drop 1).take (rowlen - 1))
    let curUnf := cur.take 1 ++ body ++ cur.drop rowlen
    let newPrev := curUnf.take rowlen ++ prev.drop rowlen
    .yielded ((curUnf.take rowlen).drop 1) newPrev (curUnf.drop rowlen) evs
  else
    .badFilter f prev cur evs

/-- The row assembly loop (mod.rs lines 430-471): while `current` is shorter
than `rowlen`, pull the next decoded event, appending `ImageData` payloads;
at end of image data fail with truncation if `current` is non-empty, else
report clean end; once `current.len() >= rowlen`, consume one row. -/
def rowLoopGo (rowlen bpp : Nat) (prev : List Nat) :
    List DecEvent → List Nat → RowLoopResult
  | [], cur =>
    if rowlen ≤ cur.length then assembleRow rowlen bpp prev cur []
    else if 0 < cur.length then .truncated prev cur else .cleanEnd prev
  | e :: rest, cur =>
    if rowlen ≤ cur.length then assembleRow rowlen bpp prev cur (e :: rest)
    else
      match e with
      | .imageData d => rowLoopGo rowlen bpp prev rest (cur ++ d)
      | .otherEvent => rowLoopGo rowlen bpp prev rest cur
      | .failed er => .upstreamFailed er prev cur rest

/-- Entry point of the loop, with the buffer argument last in source order. -/
def rowLoop (rowlen bpp : Nat) (prev cur : List Nat) (evs : List DecEvent) : RowLoopResult :=
  rowLoopGo rowlen bpp prev evs cur

/-- Unfolding `rowLoop` one iteration reproduces the source's loop shape:
test `current.len() >= rowlen` first, otherwise pull one event. -/
theorem rowLoop_eq (rowlen bpp : Nat) (prev cur : List Nat) (evs : List DecEvent) :
    rowLoop rowlen bpp prev cur evs =
      if rowlen ≤ cur.length then assembleRow rowlen bpp prev cur evs
      else
        match evs with
        | [] => if 0 < cur.length then .truncated prev cur else .cleanEnd prev
        | .imageData d :: rest => rowLoop rowlen bpp prev (cur ++ d) rest
        | .otherEvent :: rest => rowLoop rowlen bpp prev cur rest
        | .failed e :: rest => .upstreamFailed e prev cur rest := by
  cases evs with
  | nil => rfl
  | cons e rest => cases e <;> rfl

/-- The mutable state of `Reader` (mod.rs lines 97-118) relevant to row
decoding.  The immutable parsed header and the transformation set are passed
separately to each operation; the upstream is modelled as the list of
outcomes the chunk driver will yield. -/
structure Reader where
  eof : Bool
  bpp : Nat
  rowlen : Nat
  adam7 : Option Adam7
  prev : List Nat
  current : List Nat
  processed : List Nat
deriving DecidableEq, Repr

/-- The pass bookkeeping at the head of `next_raw_interlaced_row` (mod.rs
lines 411-429): determine this row's `rowlen` and pass data, resetting
`prev` to zeros when the Adam7 iterator advanced to a new pass.  Returns
`none` when the iterator is exhausted. -/
def rawPre (info : Info) (s : Reader) : Option (Nat × Option (Nat × Nat × Nat) × Reader) :=
  match s.adam7 with
  | some a =>
    match a.next with
    | some ((pass, line, len), a') =>
      let rowlen := info.raw_row_length_from_width len
      let prev' := if a.currentPass ≠ pass then List.replicate rowlen 0 else s.prev
      some (rowlen, some (pass, line, len), { s with adam7 := some a', prev := prev' })
    | none => none
  | none => some (s.rowlen, none, s)

/-- `Reader::next_raw_interlaced_row` (mod.rs lines 407-472) as a state
transformer over the reader state and the upstream event list. -/
def next_raw_interlaced_row (info : Info) (s : Reader) (evs : List DecEvent) :
    Except Failure (Option (List Nat × Option (Nat × Nat × Nat))) × Reader × List DecEvent :=
  if s.eof then (.ok none, s, evs)
  else
    match rawPre info s with
    | none => (.ok none, s, evs)
    | some (rowlen, passdata, s1) =>
      match rowLoop rowlen s1.bpp s1.prev s1.current evs with
      | .yielded row prev' cur' evs' =>
        (.ok (some (row, passdata)), { s1 with prev := prev', current := cur' }, evs')
      | .badFilter n prev' cur' evs' =>
        (.error (.dec (.format ("invalid filter method (" ++ Nat.repr n ++ ")"))),
          { s1 with prev := prev', current := cur' }, evs')
      | .upstreamFailed e prev' cur' evs' =>
        (.error (.dec e.toDecodingError), { s1 with prev := prev', current := cur' }, evs')
      | .truncated prev' cur' =>
        (.error (.dec (.format "file truncated")), { s1 with prev := prev', current := cur' }, [])
      | .cleanEnd prev' =>
        (.ok none, { s1 with prev := prev', current := [], eof := true }, [])

/-! ## Transformation pipeline (mod.rs lines 213-273 and 352-404; the
`utils` expanders are modelled from spec §4.2 and §4.4) -/

/-- `vec.resize(n, 0)`: truncate or zero-pad to length `n`. -/
def resizeList (l : List Nat) (n : Nat) : List Nat :=
  l.take n ++ List.replicate (n - l.length) 0

/-- `io::Write for &mut [u8]`: copy as much of `src` as fits into the front
of `dst`; the rest of `dst` is unchanged. -/
def writeInto (dst src : List Nat) : List Nat :=
  src.take dst.length ++ dst.drop (min src.length dst.length)

/-- Modelled from the spec: reading packed sample `j` of bit depth `d` from
a row buffer, MSB-first within each byte; for d = 16 the sample value is the
high byte (§4.2). -/
def sampleAt (buf : List Nat) (d j : Nat) : Nat :=
  if d = 16 then buf.getD (2 * j) 0
  else if d = 8 then buf.getD j 0
  else
    let perByte := 8 / d
    let byte := buf.getD (j / perByte) 0
    (byte >>> (8 - d * (j % perByte + 1))) % 2 ^ d

/-- Helper for `unpack_bits`: expand samples `0..j`, concatenating each
writer chunk; a writer may report a Rust panic (palette bounds). -/
def unpackGo (buf : List Nat) (d : Nat) (writer : Nat → Except Failure (List Nat)) :
    Nat → Except Failure (List Nat)
  | 0 => .ok []
  | j + 1 =>
    match unpackGo buf d writer j with
    | .error e => .error e
    | .ok pre =>
      match writer (sampleAt buf d j) with
      | .error e => .error e
      | .ok chunk => .ok (pre ++ chunk)

/-- Modelled from the spec: `utils::unpack_bits` (§4.2; utils.rs is not part
of the given sources): expand each packed sample to `channels` bytes in
place; the sample count is what fits, `buf.len() / channels`; bytes past the
expanded region keep their old contents. -/
def unpack_bits (buf : List Nat) (channels d : Nat)
    (writer : Nat → Except Failure (List Nat)) : Except Failure (List Nat) :=
  let entries := buf.length / channels
  match unpackGo buf d writer entries with
  | .ok out => .ok (out ++ buf.drop out.length)
  | .error e => .error e

/-- The per-sample writer of `Reader::expand_paletted` (mod.rs lines
385-402): look the palette triple up (panicking on a bounds violation, see
the source's `TODO prevent panic!`) and append `trns[i]`, defaulting to
0xFF, when a trns table is used. -/
def palettedWriter (palette trns : List Nat) (useTrns : Bool) (i : Nat) :
    Except Failure (List Nat) :=
  if 3 * i + 3 ≤ palette.length then
    let rgb := (palette.drop (3 * i)).take 3
    if useTrns then .ok (rgb ++ [trns.getD i 0xFF]) else .ok rgb
  else .error .panicked

/-- `Reader::expand_paletted` (mod.rs lines 381-404): panics when the
header carries no palette (`unwrap_or_else(|| panic!())`). -/
def expand_paletted (info : Info) (processed : List Nat) : Except Failure (List Nat) :=
  match info.palette with
  | none => .error .panicked
  | some palette =>
    match info.trns with
    | some trns => unpack_bits processed 4 info.bit_depth (palettedWriter palette trns true)
    | none => unpack_bits processed 3 info.bit_depth (palettedWriter palette [] false)

/-- `Reader::expand_gray_u8` (mod.rs lines 357-379): rescale sub-8-bit gray
samples, adding an alpha byte keyed on `trns[0]` when a trns table exists. -/
def expand_gray_u8 (info : Info) (processed : List Nat) : Except Failure (List Nat) :=
  let scaling_factor := 255 / (2 ^ info.bit_depth - 1)
  match info.trns with
  | some trns =>
    match trns with
    | [] => .error .panicked
    | t0 :: _ =>
      unpack_bits processed 2 info.bit_depth (fun pixel =>
        .ok [pixel * scaling_factor % 256, if pixel = t0 then 0 else 0xFF])
  | none =>
    unpack_bits processed 1 info.bit_depth (fun v => .ok [v * scaling_factor % 256])

/-- Modelled from the spec: `utils::expand_trns_line` (§4.4 step 4; utils.rs
is not part of the given sources): for each 8-bit pixel of `channels`
samples, append an alpha byte of 0 when the pixel matches the trns key,
0xFF otherwise; bytes past the expanded region keep their old contents. -/
def expand_trns_line (processed trns : List Nat) (channels : Nat) : List Nat :=
  let entries := processed.length / (channels + 1)
  ((List.range entries).map (fun j =>
    let px := (processed.drop (j * channels)).take channels
    px ++ [if px = trns.take channels then 0 else 0xFF])).flatten
  ++ processed.drop (entries * (channels + 1))

/-- Modelled from the spec: `utils::expand_trns_line16` (§4.4 step 4): the
16-bit variant compares 2-byte big-endian samples and appends a 2-byte
alpha. -/
def expand_trns_line16 (processed trns : List Nat) (channels : Nat) : List Nat :=
  let entries := processed.length / ((channels + 1) * 2)
  ((List.range entries).map (fun j =>
    let px := (processed.drop (j * channels * 2)).take (channels * 2)
    px ++ (if px = trns.take (channels * 2) then [0, 0] else [0xFF, 0xFF]))).flatten
  ++ processed.drop (entries * ((channels + 1) * 2))

/-- The EXPAND stage of `next_interlaced_row` (mod.rs lines 240-257),
dispatching on color type, bit depth and trns presence exactly as the
source's match does. -/
def expandStage (info : Info) (t : Transformations) (processed : List Nat) :
    Except Failure (List Nat) :=
  if t.expand then
    match info.color_type with
    | .indexed => expand_paletted info processed
    | .grayscale =>
      if info.bit_depth < 8 then expand_gray_u8 info processed
      else
        match info.trns with
        | some trns =>
          if info.bit_depth = 8 then .ok (expand_trns_line processed trns ColorType.grayscale.samples)
          else .ok (expand_trns_line16 processed trns ColorType.grayscale.samples)
        | none => .ok processed
    | .grayscaleAlpha =>
      if info.bit_depth < 8 then expand_gray_u8 info processed else .ok processed
    | .rgb =>
      match info.trns with
      | some trns =>
        if info.bit_depth = 8 then .ok (expand_trns_line processed trns ColorType.rgb.samples)
        else .ok (expand_trns_line16 processed trns ColorType.rgb.samples)
      | none => .ok processed
    | .rgba => .ok processed
  else .ok processed

/-- The 16-bit reduction write of `next_interlaced_row` (mod.rs lines
258-263): `processed[i] = processed[2 * i]` for every `i < half`, i.e. keep
the high byte of each big-endian sample. -/
def reduce16 (l : List Nat) (half : Nat) : List Nat :=
  (List.range half).map fun i => l.getD (2 * i) 0

/-- The `processed` buffer just before the EXPAND stage (mod.rs lines
224-238): the raw row written over the front of `processed`, then, for an
interlaced pass, resized to `line_size(pass_width)`. -/
def pipelinePre (t : Transformations) (info : Info) (processed row : List Nat)
    (meta : Option (Nat × Nat × Nat)) : List Nat :=
  let buffer := writeInto processed row
  match meta with
  | some (_, _, width) => resizeList buffer (line_size t info width)
  | none => buffer

/-- `Reader::next_interlaced_row` (mod.rs lines 213-273): the raw row run
through the transformation pipeline, unless the transformation set is
IDENTITY. -/
def next_interlaced_row (info : Info) (t : Transformations) (s : Reader)
    (evs : List DecEvent) :
    Except Failure (Option (List Nat × Option (Nat × Nat × Nat))) × Reader × List DecEvent :=
  if t = .identity then next_raw_interlaced_row info s evs
  else
    match next_raw_interlaced_row info s evs with
    | (.error e, s', evs') => (.error e, s', evs')
    | (.ok none, s', evs') => (.ok none, s', evs')
    | (.ok (some (row, meta)), s1, evs') =>
      let old_len := s1.processed.length
      let processed1 := pipelinePre t info s1.processed row meta
      let len0 := processed1.length
      match expandStage info t processed1 with
      | .error e => (.error e, { s1 with processed := processed1 }, evs')
      | .ok processed2 =>
        let stripping := info.bit_depth = 16 ∧ t.scaleOrStrip
        let len1 := if stripping then len0 / 2 else len0
        let processed3 :=
          if stripping then reduce16 processed2 (len0 / 2) ++ processed2.drop (len0 / 2)
          else processed2
        let processed4 := resizeList processed3 old_len
        (.ok (some (processed4.take len1, meta)), { s1 with processed := processed4 }, evs')

/-- `Reader::next_row` (mod.rs lines 208-210): drop the interlace
metadata. -/
def next_row (info : Info) (t : Transformations) (s : Reader) (evs : List DecEvent) :
    Except Failure (Option (List Nat)) × Reader × List DecEvent :=
  match next_interlaced_row info t s evs with
  | (.ok v, s', evs') => (.ok (v.map Prod.fst), s', evs')
  | (.error e, s', evs') => (.error e, s', evs')

/-- C2: `output_color_type()` maps color type and bit depth exactly as the
claim describes, for every header and transformation set. -/
theorem claim_C2_output_color_type (t : Transformations) (info : Info) :
    output_color_type t info = output_color_type_claimed t info := by
  obtain ⟨e, st, sc⟩ := t
  obtain ⟨w, h, ct, d, il, pal, trns⟩ := info
  cases e <;> cases st <;> cases sc <;> cases ct <;> cases trns <;>
    simp [output_color_type, output_color_type_claimed, Transformations.identity,
      Transformations.scaleOrStrip] <;>
    by_cases hd : d = 16 <;> simp [hd]

/-- When the loop runs out of events while `current` is still short of
`rowlen` and no error event intervenes, the outcome is clean end on an empty
accumulated buffer and truncation otherwise. -/
theorem rowLoop_end (rowlen bpp : Nat) (prev : List Nat) :
    ∀ evs cur, noFailed evs = true → cur.length + (eventsData evs).length < rowlen →
      rowLoop rowlen bpp prev cur evs =
        if cur ++ eventsData evs = [] then .cleanEnd prev
        else .truncated prev (cur ++ eventsData evs) := by
  intro evs
  induction evs with
  | nil =>
    intro cur _ hlt
    simp [eventsData] at hlt
    rw [rowLoop_eq]
    simp [show ¬ rowlen ≤ cur.length by omega, eventsData]
    cases cur <;> simp
  | cons e rest ih =>
    intro cur hnf hlt
    cases e with
    | imageData d =>
      simp [eventsData] at hlt
      simp [noFailed] at hnf
      rw [rowLoop_eq]
      simp only [show ¬ rowlen ≤ cur.length by omega, if_false]
      rw [ih (cur ++ d) (by simp [noFailed]; exact hnf) (by simp [eventsData]; omega)]
      simp [eventsData, List.append_assoc]
    | otherEvent =>
      simp [eventsData] at hlt
      simp [noFailed] at hnf
      rw [rowLoop_eq]
      simp only [show ¬ rowlen ≤ cur.length by omega, if_false]
      rw [ih cur (by simp [noFailed]; exact hnf) (by exact hlt)]
      simp [eventsData]
    | failed e => simp [noFailed] at hnf

/-- The per-pixel bit count `line_size` charges: its `choice` value times
the factor 2 applied for 16-bit depth. -/
def lineBitsPerPixel (t : Transformations) (info : Info) : Nat :=
  let trns := info.trns.isSome
  let choice :=
    if info.color_type = .indexed ∧ trns ∧ t.expand then 4 * 8
    else if info.color_type = .indexed ∧ t.expand then 3 * 8
    else if info.color_type = .rgb ∧ trns ∧ t.expand then 4 * 8
    else if info.color_type = .grayscale ∧ trns ∧ t.expand then 2 * 8
    else if info.color_type = .grayscale ∧ t.expand then 1 * 8
    else if info.color_type = .grayscaleAlpha ∧ t.expand then 2 * 8
    else if info.bit_depth = 16 then info.bits_per_pixel / 2
    else info.bits_per_pixel
  choice * (if info.bit_depth = 16 then 2 else 1)

theorem line_size_eq_ceil (t : Transformations) (info : Info) (w : Nat) :
    line_size t info w = (lineBitsPerPixel t info * w + 7) / 8 := by
  have hceil : ∀ b : Nat, b / 8 + (if b % 8 = 0 then 0 else 1) = (b + 7) / 8 := by
    intro b
    split <;> omega
  unfold line_size lineBitsPerPixel
  rw [hceil]
  ring_nf

theorem line_size_mono (t : Transformations) (info : Info) {w1 w2 : Nat} (h : w1 ≤ w2) :
    line_size t info w1 ≤ line_size t info w2 := by
  rw [line_size_eq_ceil, line_size_eq_ceil]
  have := Nat.mul_le_mul_left (lineBitsPerPixel t info) h
  exact Nat.div_le_div_right (by omega)

/-- Without EXPAND, `line_size` is the ceiling of raw bits per row: the
16-bit halving and doubling cancel. -/
theorem line_size_no_expand (t : Transformations) (info : Info) (w : Nat)
    (hexp : t.expand = false) :
    line_size t info w = (info.bits_per_pixel * w + 7) / 8 := by
  rw [line_size_eq_ceil]
  have hbits : lineBitsPerPixel t info = info.bits_per_pixel := by
    unfold lineBitsPerPixel
    simp only [hexp]
    by_cases hd : info.bit_depth = 16
    · simp only [hd, Info.bits_per_pixel, if_true]
      simp [hd]
      omega
    · simp [hd]
  rw [hbits]

theorem passWidth_le (w p : Nat) : passWidth w p ≤ w := by
  unfold passWidth passConsts
  split_ifs <;> simp_all <;> (try split_ifs) <;> omega

/-- Shape of a successful `adam7NextGo` step: it yields the pass it stopped
at, that pass's width, and advances the line. -/
theorem adam7NextGo_shape (w h : Nat) :
    ∀ fuel p line pass l pw a', adam7NextGo w h fuel p line = some ((pass, l, pw), a') →
      p ≤ pass ∧ pw = passWidth w pass ∧ 0 < pw ∧ l < passHeight h pass ∧
        a' = ⟨w, h, pass, l + 1⟩ := by
  intro fuel
  induction fuel with
  | zero => intro p line pass l pw a' hstep; simp [adam7NextGo] at hstep
  | succ f ih =>
    intro p line pass l pw a' hstep
    rw [adam7NextGo] at hstep
    by_cases h7 : 7 < p
    · simp [h7] at hstep
    · simp only [h7, if_false] at hstep
      by_cases hy : line < passHeight h p ∧ 0 < passWidth w p
      · simp only [hy, if_true] at hstep
        obtain ⟨h1, h2⟩ := hy
        injection hstep with hstep
        injection hstep with he ha
        injection he with hp hrest
        injection hrest with hl hw
        subst hp; subst hl; subst hw; subst ha
        exact ⟨le_refl _, rfl, h2, h1, rfl⟩
      · simp only [hy, if_false] at hstep
        by_cases h77 : p < 7
        · simp only [h77, if_true] at hstep
          have := ih (p + 1) 0 pass l pw a' hstep
          exact ⟨by omega, this.2⟩
        · simp [h77] at hstep

/-- Shape of a successful `Adam7.next`: the yielded width is the width of
the yielded pass, and the iterator keeps its dimensions. -/
theorem adam7_next_shape (a : Adam7) (pass l pw : Nat) (a' : Adam7)
    (h : a.next = some ((pass, l, pw), a')) :
    a.currentPass ≤ pass ∧ pw = passWidth a.width pass ∧ 0 < pw ∧
      l < passHeight a.height pass ∧ a' = ⟨a.width, a.height, pass, l + 1⟩ :=
  adam7NextGo_shape a.width a.height (8 - a.currentPass) a.currentPass a.line pass l pw a' h

theorem resizeList_length (l : List Nat) (n : Nat) : (resizeList l n).length = n := by
  simp [resizeList]
  omega

theorem writeInto_length (dst src : List Nat) : (writeInto dst src).length = dst.length := by
  simp [writeInto]
  omega

/-- A row yielded by `assembleRow` has length `rowlen - 1` (the filter byte
is not part of it). -/
theorem assembleRow_yield_length (rowlen bpp : Nat) (prev cur : List Nat)
    (evs evs' : List DecEvent) (row p c : List Nat)
    (hlen : rowlen ≤ cur.length)
    (h : assembleRow rowlen bpp prev cur evs = .yielded row p c evs') :
    row.length = rowlen - 1 := by
  unfold assembleRow at h
  simp only [List.headD_eq_head?_getD] at h
  by_cases hf : cur.head?.getD 0 ≤ 4
  · simp only [hf, if_true] at h
    injection h with hrow hrest
    subst hrow
    simp [unfilter_length]
    omega
  · simp [hf] at h

/-- A row yielded by the assembly loop has length `rowlen - 1`. -/
theorem rowLoopGo_yield_length (rowlen bpp : Nat) (prev : List Nat) :
    ∀ evs cur row p c evs', rowLoopGo rowlen bpp prev evs cur = .yielded row p c evs' →
      row.length = rowlen - 1 := by
  intro evs
  induction evs with
  | nil =>
    intro cur row p c evs' h
    simp only [rowLoopGo] at h
    by_cases hlen : rowlen ≤ cur.length
    · simp only [hlen, if_true] at h
      exact assembleRow_yield_length rowlen bpp prev cur [] evs' row p c hlen h
    · simp only [hlen, if_false] at h
      split at h <;> simp at h
  | cons e rest ih =>
    intro cur row p c evs' h
    simp only [rowLoopGo] at h
    by_cases hlen : rowlen ≤ cur.length
    · simp only [hlen, if_true] at h
      exact assembleRow_yield_length rowlen bpp prev cur (e :: rest) evs' row p c hlen h
    · simp only [hlen, if_false] at h
      cases e with
      | imageData d => exact ih (cur ++ d) row p c evs' h
      | otherEvent => exact ih cur row p c evs' h
      | failed er => simp at h

theorem rowLoop_yield_length (rowlen bpp : Nat) (prev cur : List Nat)
    (evs evs' : List DecEvent) (row p c : List Nat)
    (h : rowLoop rowlen bpp prev cur evs = .yielded row p c evs') :
    row.length = rowlen - 1 :=
  rowLoopGo_yield_length rowlen bpp prev evs cur row p c evs' h

/-- `rawPre` never touches `processed`, `bpp` or `current`. -/
theorem rawPre_preserves (info : Info) (s : Reader) (rowlen : Nat)
    (meta : Option (Nat × Nat × Nat)) (s1 : Reader)
    (h : rawPre info s = some (rowlen, meta, s1)) :
    s1.processed = s.processed ∧ s1.bpp = s.bpp ∧ s1.current = s.current := by
  unfold rawPre at h
  cases ha : s.adam7 with
  | none =>
    simp only [ha, Option.some.injEq, Prod.mk.injEq] at h
    obtain ⟨h1, h2, h3⟩ := h
    subst h3
    exact ⟨rfl, rfl, rfl⟩
  | some a =>
    simp only [ha] at h
    cases hn : a.next with
    | none => simp only [hn] at h; exact absurd h (by simp)
    | some v =>
      obtain ⟨⟨pass, line, len⟩, a'⟩ := v
      simp only [hn, Option.some.injEq, Prod.mk.injEq] at h
      obtain ⟨h1, h2, h3⟩ := h
      subst h3
      exact ⟨rfl, rfl, rfl⟩

/-- The `rowlen` determined by `rawPre`, by interlace mode: cached full-image
row length when not interlaced, the yielded pass's raw row length (at that
pass's width) when interlaced. -/
theorem rawPre_rowlen (info : Info) (s : Reader) (rowlen : Nat)
    (meta : Option (Nat × Nat × Nat)) (s1 : Reader)
    (h : rawPre info s = some (rowlen, meta, s1)) :
    (s.adam7 = none ∧ meta = none ∧ rowlen = s.rowlen) ∨
    (∃ a pass line w, s.adam7 = some a ∧ meta = some (pass, line, w) ∧
      rowlen = info.raw_row_length_from_width w ∧ w = passWidth a.width pass) := by
  unfold rawPre at h
  cases ha : s.adam7 with
  | none =>
    simp only [ha, Option.some.injEq, Prod.mk.injEq] at h
    obtain ⟨h1, h2, h3⟩ := h
    exact Or.inl ⟨rfl, h2.symm, h1.symm⟩
  | some a =>
    simp only [ha] at h
    cases hn : a.next with
    | none => simp only [hn] at h; exact absurd h (by simp)
    | some v =>
      obtain ⟨⟨pass, line, len⟩, a'⟩ := v
      simp only [hn, Option.some.injEq, Prod.mk.injEq] at h
      obtain ⟨h1, h2, h3⟩ := h
      refine Or.inr ⟨a, pass, line, len, rfl, h2.symm, h1.symm, ?_⟩
      exact (adam7_next_shape a pass line len a' hn).2.1

/-- A successful row from `next_raw_interlaced_row` comes from `rawPre`
followed by a yield of the assembly loop; the row is `rowlen - 1` bytes and
`processed` is untouched. -/
theorem next_raw_yield (info : Info) (s s' : Reader) (evs evs' : List DecEvent)
    (row : List Nat) (meta : Option (Nat × Nat × Nat))
    (h : next_raw_interlaced_row info s evs = (.ok (some (row, meta)), s', evs')) :
    ∃ rowlen s1, rawPre info s = some (rowlen, meta, s1) ∧
      row.length = rowlen - 1 ∧ s'.processed = s.processed := by
  unfold next_raw_interlaced_row at h
  cases hb : s.eof with
  | true => simp [hb] at h
  | false =>
    simp only [hb] at h
    rw [if_neg Bool.false_ne_true] at h
    cases hp : rawPre info s with
    | none => simp only [hp] at h; simp at h
    | some v =>
      obtain ⟨rowlen, passdata, s1⟩ := v
      simp only [hp] at h
      cases hl : rowLoop rowlen s1.bpp s1.prev s1.current evs with
      | yielded r pr cu e' =>
        simp only [hl, Prod.mk.injEq, Except.ok.injEq, Option.some.injEq, and_assoc] at h
        obtain ⟨hr, hm, h2, h3⟩ := h
        subst hr
        refine ⟨rowlen, s1, by rw [hm], rowLoop_yield_length _ _ _ _ _ _ _ _ _ hl, ?_⟩
        rw [← h2]
        exact (rawPre_preserves info s rowlen passdata s1 hp).1
      | badFilter n pr cu e' => simp only [hl] at h; simp at h
      | upstreamFailed er pr cu e' => simp only [hl] at h; simp at h
      | truncated pr cu => simp only [hl] at h; simp at h
      | cleanEnd pr => simp only [hl] at h; simp at h

/-- The width the claim compares against: the yielded pass width for
interlaced rows, the image width otherwise. -/
def metaWidth (info : Info) (meta : Option (Nat × Nat × Nat)) : Nat :=
  match meta with
  | some (_, _, w) => w
  | none => info.width

theorem take_resize_length (l : List Nat) (n k : Nat) (h : k ≤ n) :
    ((resizeList l n).take k).length = k := by
  simp [List.length_take, resizeList_length]
  omega

/-- C1: every row yielded by `next_interlaced_row` has length
`output_line_size(w)`, where `w` is the yielded pass width for interlaced
images and the image width otherwise, under any transformation set.  The
hypotheses are the init invariants: `processed` was allocated at
`line_size(width)`, `rowlen` caches the full-image raw row length, and the
Adam7 iterator (if any) carries the image width. -/
theorem claim_C1_row_length (info : Info) (t : Transformations) (s s' : Reader)
    (evs evs' : List DecEvent) (row : List Nat) (meta : Option (Nat × Nat × Nat))
    (hproc : s.processed.length = line_size t info info.width)
    (hrow : s.rowlen = info.raw_row_length)
    (hadam : ∀ a, s.adam7 = some a → a.width = info.width)
    (h : next_interlaced_row info t s evs = (.ok (some (row, meta)), s', evs')) :
    row.length = output_line_size t info (metaWidth info meta) := by
  unfold next_interlaced_row at h
  by_cases ht : t = .identity
  · rw [if_pos ht] at h
    obtain ⟨rowlen, s1, hp, hlen, _⟩ := next_raw_yield info s s' evs evs' row meta h
    have hexp : t.expand = false := by rw [ht]; rfl
    have hsos : t.scaleOrStrip = false := by rw [ht]; rfl
    have hout : ∀ w, output_line_size t info w = (info.bits_per_pixel * w + 7) / 8 := by
      intro w
      unfold output_line_size
      simp [hsos, line_size_no_expand t info w hexp]
    rcases rawPre_rowlen info s rowlen meta s1 hp with ⟨_, hm, hr⟩ |
      ⟨a, pass, line, w, _, hm, hr, _⟩
    · subst hm
      simp only [metaWidth]
      rw [hout, hlen, hr, hrow]
      unfold Info.raw_row_length Info.raw_row_length_from_width
      rw [Nat.mul_comm]
      omega
    · subst hm
      simp only [metaWidth]
      rw [hout, hlen, hr]
      unfold Info.raw_row_length_from_width
      rw [Nat.mul_comm]
      omega
  · rw [if_neg ht] at h
    rcases hn : next_raw_interlaced_row info s evs with ⟨res, s1, evs1⟩
    rw [hn] at h
    cases res with
    | error e0 => simp at h
    | ok o =>
      cases o with
      | none => simp at h
      | some rm =>
        obtain ⟨row0, meta0⟩ := rm
        obtain ⟨rowlen, sPre, hp, _, hsp⟩ :=
          next_raw_yield info s s1 evs evs1 row0 meta0 hn
        cases hs : expandStage info t (pipelinePre t info s1.processed row0 meta0) with
        | error e0 => simp only [hs] at h; simp at h
        | ok p2 =>
          simp only [hs, Prod.mk.injEq, Except.ok.injEq, Option.some.injEq, and_assoc] at h
          obtain ⟨hrw, hm, _, _⟩ := h
          subst hm
          have hlen0 : (pipelinePre t info s1.processed row0 meta0).length =
              line_size t info (metaWidth info meta0) ∧
              metaWidth info meta0 ≤ info.width := by
            rcases rawPre_rowlen info s rowlen meta0 sPre hp with ⟨_, hm0, _⟩ |
              ⟨a, pass, line, w, ha0, hm0, _, hw⟩
            · subst hm0
              simp [pipelinePre, writeInto_length, hsp, hproc, metaWidth]
            · subst hm0
              constructor
              · simp [pipelinePre, resizeList_length, metaWidth]
              · simp only [metaWidth]
                rw [hw, hadam a ha0]
                exact passWidth_le info.width pass
          obtain ⟨hlen0, hwle⟩ := hlen0
          have hmono : line_size t info (metaWidth info meta0) ≤ line_size t info info.width :=
            line_size_mono t info hwle
          rw [← hrw]
          simp only [output_line_size]
          have hs1proc : s1.processed.length = line_size t info info.width := by
            rw [hsp]
            exact hproc
          by_cases hstrip : info.bit_depth = 16 ∧ t.scaleOrStrip = true
          · rw [if_pos hstrip, if_pos hstrip, take_resize_length]
            · rw [hlen0, if_pos hstrip]
            · rw [hs1proc]
              omega
          · rw [if_neg hstrip, if_neg hstrip, take_resize_length]
            · rw [hlen0, if_neg hstrip]
            · rw [hs1proc]
              omega

/-- C1 witness: a 2x1 grayscale 8-bit image decoded under IDENTITY yields a
2-byte row, matching `output_line_size(2) = 2`. -/
theorem claim_C1_row_length_witness :
    ([7, 9] : List Nat).length = output_line_size .identity
      ⟨2, 1, .grayscale, 8, false, none, none⟩ 2 :=
  claim_C1_row_length ⟨2, 1, .grayscale, 8, false, none, none⟩ .identity
    ⟨false, 1, 3, none, [0, 0, 0], [], [0, 0]⟩
    ⟨false, 1, 3, none, [0, 7, 9], [], [0, 0]⟩ [.imageData [0, 7, 9]] []
    [7, 9] none rfl rfl (by simp) (by rfl)

/-- C3: when the row assembly loop reaches end of image data with `current`
non-empty, `next_raw_interlaced_row` fails with `Format("file truncated")`;
when it reaches it with `current` empty, it sets the `eof` flag and returns
`None`. -/
theorem claim_C3_end_of_data (info : Info) (s : Reader) (evs : List DecEvent)
    (rowlen : Nat) (meta : Option (Nat × Nat × Nat)) (s1 : Reader)
    (heof : s.eof = false)
    (hpre : rawPre info s = some (rowlen, meta, s1))
    (hnf : noFailed evs = true)
    (hlt : s1.current.length + (eventsData evs).length < rowlen) :
    (s1.current ++ eventsData evs = [] →
      (next_raw_interlaced_row info s evs).1 = .ok none ∧
      (next_raw_interlaced_row info s evs).2.1.eof = true) ∧
    (s1.current ++ eventsData evs ≠ [] →
      (next_raw_interlaced_row info s evs).1 = .error (.dec (.format "file truncated"))) := by
  have h := rowLoop_end rowlen s1.bpp s1.prev evs s1.current hnf hlt
  unfold next_raw_interlaced_row
  constructor <;> intro hc <;> simp [heof, hpre, h, hc]

/-- C3 witness: a concrete truncated stream (one spare byte, then end of
data) fails with `Format("file truncated")`, and a concrete clean end sets
`eof` and yields `None`. -/
theorem claim_C3_end_of_data_witness :
    (([5] : List Nat) ++ eventsData [] ≠ [] →
      (next_raw_interlaced_row ⟨2, 1, .grayscale, 8, false, none, none⟩
        ⟨false, 1, 3, none, [0, 0, 0], [5], []⟩ []).1 =
        .error (.dec (.format "file truncated"))) ∧
    (([] : List Nat) ++ eventsData [] = [] →
      (next_raw_interlaced_row ⟨2, 1, .grayscale, 8, false, none, none⟩
        ⟨false, 1, 3, none, [0, 0, 0], [], []⟩ []).1 = .ok none ∧
      (next_raw_interlaced_row ⟨2, 1, .grayscale, 8, false, none, none⟩
        ⟨false, 1, 3, none, [0, 0, 0], [], []⟩ []).2.1.eof = true) :=
  ⟨(claim_C3_end_of_data ⟨2, 1, .grayscale, 8, false, none, none⟩
      ⟨false, 1, 3, none, [0, 0, 0], [5], []⟩ [] 3 none
      ⟨false, 1, 3, none, [0, 0, 0], [5], []⟩ rfl rfl rfl (by decide)).2,
   (claim_C3_end_of_data ⟨2, 1, .grayscale, 8, false, none, none⟩
      ⟨false, 1, 3, none, [0, 0, 0], [], []⟩ [] 3 none
      ⟨false, 1, 3, none, [0, 0, 0], [], []⟩ rfl rfl rfl (by decide)).1⟩

/-- C4: on an assembled row, a leading filter-type byte outside 0..=4 fails
with `Format("invalid filter method (N)")`, and a byte in 0..=4 yields a row
(so that error never occurs). -/
theorem claim_C4_filter_byte (info : Info) (s : Reader) (evs : List DecEvent)
    (rowlen : Nat) (meta : Option (Nat × Nat × Nat)) (s1 : Reader) (n : Nat)
    (heof : s.eof = false)
    (hpre : rawPre info s = some (rowlen, meta, s1))
    (hlen : rowlen ≤ s1.current.length)
    (hhead : s1.current.headD 0 = n) :
    (4 < n → (next_raw_interlaced_row info s evs).1 =
      .error (.dec (.format ("invalid filter method (" ++ Nat.repr n ++ ")")))) ∧
    (n ≤ 4 → ∃ row, (next_raw_interlaced_row info s evs).1 = .ok (some (row, meta))) := by
  have hr : rowLoop rowlen s1.bpp s1.prev s1.current evs =
      assembleRow rowlen s1.bpp s1.prev s1.current evs := by
    rw [rowLoop_eq]
    simp [hlen]
  constructor
  · intro h4
    have ha : assembleRow rowlen s1.bpp s1.prev s1.current evs =
        .badFilter n s1.prev s1.current evs := by
      unfold assembleRow
      rw [hhead]
      simp [show ¬ n ≤ 4 by omega]
    unfold next_raw_interlaced_row
    simp [heof, hpre, hr, ha]
  · intro h4
    have ha : ∃ row prev' cur', assembleRow rowlen s1.bpp s1.prev s1.current evs =
        .yielded row prev' cur' evs := by
      unfold assembleRow
      rw [hhead]
      simp [h4]
    obtain ⟨row, prev', cur', ha⟩ := ha
    refine ⟨row, ?_⟩
    unfold next_raw_interlaced_row
    simp [heof, hpre, hr, ha]

/-- C4 witness: a concrete assembled row with filter byte 9 produces
`Format("invalid filter method (9)")`. -/
theorem claim_C4_filter_byte_witness :
    4 < 9 ∧
    ((next_raw_interlaced_row ⟨2, 1, .grayscale, 8, false, none, none⟩
      ⟨false, 1, 3, none, [0, 0, 0], [9, 1, 2], []⟩ []).1 =
      .error (.dec (.format ("invalid filter method (" ++ Nat.repr 9 ++ ")")))) :=
  ⟨by decide,
   (claim_C4_filter_byte ⟨2, 1, .grayscale, 8, false, none, none⟩
      ⟨false, 1, 3, none, [0, 0, 0], [9, 1, 2], []⟩ [] 3 none
      ⟨false, 1, 3, none, [0, 0, 0], [9, 1, 2], []⟩ 9 rfl rfl (by decide) rfl).1
      (by decide)⟩

/-- C10: once `eof` is set, `next_raw_interlaced_row` (and with it
`next_interlaced_row` and `next_row`) returns `None` immediately, with the
reader state and the upstream event list untouched. -/
theorem claim_C10_fused_after_eof (info : Info) (t : Transformations) (s : Reader)
    (evs : List DecEvent) (heof : s.eof = true) :
    next_raw_interlaced_row info s evs = (.ok none, s, evs) ∧
    next_interlaced_row info t s evs = (.ok none, s, evs) ∧
    next_row info t s evs = (.ok none, s, evs) := by
  have hraw : next_raw_interlaced_row info s evs = (.ok none, s, evs) := by
    unfold next_raw_interlaced_row
    simp [heof]
  have hil : next_interlaced_row info t s evs = (.ok none, s, evs) := by
    unfold next_interlaced_row
    rw [hraw]
    by_cases ht : t = .identity <;> simp [ht, hraw]
  refine ⟨hraw, hil, ?_⟩
  unfold next_row
  rw [hil]
  rfl

/-- C10 witness: a concrete reader with `eof` set returns `None` from all
three row operations without touching state or upstream. -/
theorem claim_C10_fused_after_eof_witness :
    next_raw_interlaced_row ⟨2, 1, .grayscale, 8, false, none, none⟩
      ⟨true, 1, 3, none, [0, 0, 0], [], []⟩ [.imageData [0, 1]] =
      (.ok none, ⟨true, 1, 3, none, [0, 0, 0], [], []⟩, [.imageData [0, 1]]) ∧
    next_interlaced_row ⟨2, 1, .grayscale, 8, false, none, none⟩ ⟨true, false, false⟩
      ⟨true, 1, 3, none, [0, 0, 0], [], []⟩ [.imageData [0, 1]] =
      (.ok none, ⟨true, 1, 3, none, [0, 0, 0], [], []⟩, [.imageData [0, 1]]) ∧
    next_row ⟨2, 1, .grayscale, 8, false, none, none⟩ ⟨true, false, false⟩
      ⟨true, 1, 3, none, [0, 0, 0], [], []⟩ [.imageData [0, 1]] =
      (.ok none, ⟨true, 1, 3, none, [0, 0, 0], [], []⟩, [.imageData [0, 1]]) :=
  claim_C10_fused_after_eof ⟨2, 1, .grayscale, 8, false, none, none⟩
    ⟨true, false, false⟩ ⟨true, 1, 3, none, [0, 0, 0], [], []⟩ [.imageData [0, 1]] rfl

theorem reduce16_length (l : List Nat) (h : Nat) : (reduce16 l h).length = h := by
  simp [reduce16]

theorem reduce16_getD (l : List Nat) (h i : Nat) (hi : i < h) :
    (reduce16 l h).getD i 0 = l.getD (2 * i) 0 := by
  simp [reduce16, List.getD_eq_getElem?_getD, List.getElem?_map, List.getElem?_range, hi]

/-- Taking the pre-reduction half of the resized buffer after the 16-bit
reduction write recovers exactly the reduced row. -/
theorem take_resize_reduce (pre : List Nat) (h n : Nat) (hlen : h ≤ n) :
    (resizeList (reduce16 pre h ++ pre.drop h) n).take h = reduce16 pre h := by
  have h1 : (reduce16 pre h).length = h := reduce16_length pre h
  have h2 : h ≤ (reduce16 pre h ++ pre.drop h).length := by
    simp [h1]
  unfold resizeList
  rw [List.take_append_of_le_length (by simp [List.length_take]; omega),
    List.take_take, Nat.min_eq_left hlen,
    List.take_append_of_le_length (by omega)]
  exact List.take_of_length_le (by omega)

/-- `line_size` consults the transformation set only through EXPAND. -/
theorem line_size_congr (t t2 : Transformations) (info : Info) (w : Nat)
    (h : t2.expand = t.expand) : line_size t2 info w = line_size t info w := by
  unfold line_size
  simp only [h]

/-- The EXPAND stage consults the transformation set only through EXPAND. -/
theorem expandStage_congr (t t2 : Transformations) (info : Info) (l : List Nat)
    (h : t2.expand = t.expand) : expandStage info t2 l = expandStage info t l := by
  unfold expandStage
  simp only [h]

theorem pipelinePre_congr (t t2 : Transformations) (info : Info) (p r : List Nat)
    (m : Option (Nat × Nat × Nat)) (h : t2.expand = t.expand) :
    pipelinePre t2 info p r m = pipelinePre t info p r m := by
  unfold pipelinePre
  cases m with
  | none => rfl
  | some x =>
    obtain ⟨_, _, w⟩ := x
    simp [line_size_congr t t2 info w h]

theorem scaleOrStrip_not_identity (t : Transformations) (h : t.scaleOrStrip = true) :
    t ≠ .identity := by
  intro he
  subst he
  simp [Transformations.scaleOrStrip, Transformations.identity] at h

/-- `next_interlaced_row` gives identical results for any two non-identity
transformation sets that agree on EXPAND and both request 16-bit
reduction: STRIP_16 and SCALE_16 are interchangeable. -/
theorem next_interlaced_congr (info : Info) (t t2 : Transformations) (s : Reader)
    (evs : List DecEvent)
    (hss : t.scaleOrStrip = true) (hss2 : t2.scaleOrStrip = true)
    (hexp : t2.expand = t.expand) :
    next_interlaced_row info t2 s evs = next_interlaced_row info t s evs := by
  unfold next_interlaced_row
  rw [if_neg (scaleOrStrip_not_identity t2 hss2), if_neg (scaleOrStrip_not_identity t hss)]
  rcases hn : next_raw_interlaced_row info s evs with ⟨res, s1, evs1⟩
  cases res with
  | error e0 => rfl
  | ok o =>
    cases o with
    | none => rfl
    | some rm =>
      obtain ⟨row0, meta0⟩ := rm
      simp only [pipelinePre_congr t t2 info s1.processed row0 meta0 hexp,
        expandStage_congr t t2 info _ hexp, hss, hss2]

/-- The pre-expand `processed` buffer never exceeds the allocated buffer,
when `processed` was allocated at `line_size(width)` and the iterator
carries the image width. -/
theorem pipelinePre_le (info : Info) (t : Transformations) (s s1 : Reader)
    (evs evs1 : List DecEvent) (row0 : List Nat) (meta0 : Option (Nat × Nat × Nat))
    (hproc : s.processed.length = line_size t info info.width)
    (hadam : ∀ a, s.adam7 = some a → a.width = info.width)
    (hn : next_raw_interlaced_row info s evs = (.ok (some (row0, meta0)), s1, evs1)) :
    (pipelinePre t info s1.processed row0 meta0).length ≤ s1.processed.length := by
  obtain ⟨rowlen, sPre, hp, _, hsp⟩ := next_raw_yield info s s1 evs evs1 row0 meta0 hn
  have hs1proc : s1.processed.length = line_size t info info.width := by
    rw [hsp]
    exact hproc
  rcases rawPre_rowlen info s rowlen meta0 sPre hp with ⟨_, hm0, _⟩ |
    ⟨a, pass, line, w, ha0, hm0, _, hw⟩
  · subst hm0
    simp [pipelinePre, writeInto_length]
  · subst hm0
    rw [hs1proc]
    have hwle : w ≤ info.width := by
      rw [hw, hadam a ha0]
      exact passWidth_le info.width pass
    calc (pipelinePre t info s1.processed row0 (some (pass, line, w))).length
        = line_size t info w := by simp [pipelinePre, resizeList_length]
      _ ≤ line_size t info info.width := line_size_mono t info hwle

/-- C6: for a 16-bit image with STRIP_16 or SCALE_16 set, the pipeline
halves the row, keeping the byte at index `2i` of the post-expand buffer for
every output index `i`; and any transformation set differing only in which
of STRIP_16/SCALE_16 is set yields exactly the same result. -/
theorem claim_C6_sixteen_bit_reduction (info : Info) (t t2 : Transformations)
    (s s' : Reader) (evs evs' : List DecEvent) (row : List Nat)
    (meta : Option (Nat × Nat × Nat))
    (h16 : info.bit_depth = 16)
    (hss : t.scaleOrStrip = true)
    (hss2 : t2.scaleOrStrip = true)
    (hexp : t2.expand = t.expand)
    (hproc : s.processed.length = line_size t info info.width)
    (hadam : ∀ a, s.adam7 = some a → a.width = info.width)
    (h : next_interlaced_row info t s evs = (.ok (some (row, meta)), s', evs')) :
    (∃ row0 s1 evs1 pre,
      next_raw_interlaced_row info s evs = (.ok (some (row0, meta)), s1, evs1) ∧
      expandStage info t (pipelinePre t info s1.processed row0 meta) = .ok pre ∧
      row.length = (pipelinePre t info s1.processed row0 meta).length / 2 ∧
      ∀ i < (pipelinePre t info s1.processed row0 meta).length / 2,
        row.getD i 0 = pre.getD (2 * i) 0) ∧
    next_interlaced_row info t2 s evs = (.ok (some (row, meta)), s', evs') := by
  constructor
  · unfold next_interlaced_row at h
    rw [if_neg (scaleOrStrip_not_identity t hss)] at h
    rcases hn : next_raw_interlaced_row info s evs with ⟨res, s1, evs1⟩
    rw [hn] at h
    cases res with
    | error e0 => simp at h
    | ok o =>
      cases o with
      | none => simp at h
      | some rm =>
        obtain ⟨row0, meta0⟩ := rm
        cases hs : expandStage info t (pipelinePre t info s1.processed row0 meta0) with
        | error e0 => simp only [hs] at h; simp at h
        | ok p2 =>
          simp only [hs, Prod.mk.injEq, Except.ok.injEq, Option.some.injEq, and_assoc] at h
          obtain ⟨hrw, hm, _, _⟩ := h
          subst hm
          have hstrip : info.bit_depth = 16 ∧ t.scaleOrStrip = true := ⟨h16, hss⟩
          rw [if_pos hstrip, if_pos hstrip] at hrw
          have hle : (pipelinePre t info s1.processed row0 meta0).length ≤
              s1.processed.length :=
            pipelinePre_le info t s s1 evs evs1 row0 meta0 hproc hadam hn
          have hrow : row = reduce16 p2
              ((pipelinePre t info s1.processed row0 meta0).length / 2) := by
            rw [← hrw]
            exact take_resize_reduce p2 _ _ (by omega)
          refine ⟨row0, s1, evs1, p2, rfl, hs, ?_, ?_⟩
          · rw [hrow, reduce16_length]
          · intro i hi
            rw [hrow, reduce16_getD _ _ _ hi]
  · rw [next_interlaced_congr info t t2 s evs hss hss2 hexp]
    exact h

/-- C6 witness: a 1x1 16-bit grayscale image; STRIP_16 yields the high byte
[0x12] from raw [0x12, 0x34], and SCALE_16 yields the identical result. -/
theorem claim_C6_sixteen_bit_reduction_witness :
    (∃ row0 s1 evs1 pre,
      next_raw_interlaced_row ⟨1, 1, .grayscale, 16, false, none, none⟩
        ⟨false, 1, 3, none, [0, 0, 0], [], [0, 0]⟩ [.imageData [0, 0x12, 0x34]] =
        (.ok (some (row0, (none : Option (Nat × Nat × Nat)))), s1, evs1) ∧
      expandStage ⟨1, 1, .grayscale, 16, false, none, none⟩ ⟨false, true, false⟩
        (pipelinePre ⟨false, true, false⟩ ⟨1, 1, .grayscale, 16, false, none, none⟩
          s1.processed row0 none) = .ok pre ∧
      ([0x12] : List Nat).length =
        (pipelinePre ⟨false, true, false⟩ ⟨1, 1, .grayscale, 16, false, none, none⟩
          s1.processed row0 none).length / 2 ∧
      ∀ i < (pipelinePre ⟨false, true, false⟩ ⟨1, 1, .grayscale, 16, false, none, none⟩
          s1.processed row0 none).length / 2,
        ([0x12] : List Nat).getD i 0 = pre.getD (2 * i) 0) ∧
    next_interlaced_row ⟨1, 1, .grayscale, 16, false, none, none⟩ ⟨false, false, true⟩
      ⟨false, 1, 3, none, [0, 0, 0], [], [0, 0]⟩ [.imageData [0, 0x12, 0x34]] =
      (.ok (some (([0x12] : List Nat), none)),
        ⟨false, 1, 3, none, [0, 0x12, 0x34], [], [0x12, 0x34]⟩, []) :=
  claim_C6_sixteen_bit_reduction ⟨1, 1, .grayscale, 16, false, none, none⟩
    ⟨false, true, false⟩ ⟨false, false, true⟩
    ⟨false, 1, 3, none, [0, 0, 0], [], [0, 0]⟩
    ⟨false, 1, 3, none, [0, 0x12, 0x34], [], [0x12, 0x34]⟩
    [.imageData [0, 0x12, 0x34]] [] [0x12] none
    rfl rfl rfl rfl rfl (by simp) (by rfl)

/-! ## The frame driver (`next_frame`, mod.rs lines 183-205) -/

/-- Modelled from the spec: `utils::expand_pass` (§4.3; utils.rs is not part
of the given sources): place sample `j` of a pass row at image column
`x_start + j * x_stride`, image row `y_start + line * y_stride`, copying
`bytesPP` bytes. -/
def expand_pass (buf : List Nat) (lineBytes : Nat) (row : List Nat)
    (pass line bytesPP : Nat) : List Nat :=
  let c := passConsts pass
  (List.range (row.length / bytesPP)).foldl (fun b j =>
    (List.range bytesPP).foldl (fun b k =>
      b.set ((c.2.1 + line * c.2.2.2) * lineBytes + (c.1 + j * c.2.2.1) * bytesPP + k)
        (row.getD (j * bytesPP + k) 0)) b) buf

/-- `(&mut buf[len..]).write(row)`: copy `row` into `buf` starting at
offset `len`, clipped to the buffer's end (a slice write never errors). -/
def writeSeg (buf : List Nat) (len : Nat) (row : List Nat) : List Nat :=
  buf.take len ++ writeInto (buf.drop len) row

/-- Result of `next_frame`, with an explicit out-of-fuel marker for the
shallow embedding of its row loop. -/
inductive FrameResult
  | done (buf : List Nat)
  | failed (e : Failure)
  | outOfFuel
deriving DecidableEq, Repr

/-- The interlaced loop of `next_frame` (mod.rs lines 192-197): place each
pass row via `expand_pass`; a missing pass record would be an
`adam7.unwrap()` panic. -/
def frameLoopI (info : Info) (t : Transformations) :
    Nat → Reader → List DecEvent → List Nat → Nat → Nat →
    FrameResult × Reader × List DecEvent
  | 0, s, evs, _, _, _ => (.outOfFuel, s, evs)
  | fuel + 1, s, evs, buf, widthBytes, bytes =>
    match next_interlaced_row info t s evs with
    | (.error e, s', evs') => (.failed e, s', evs')
    | (.ok none, s', evs') => (.done buf, s', evs')
    | (.ok (some (row, meta)), s', evs') =>
      match meta with
      | some (pass, line, _) =>
        frameLoopI info t fuel s' evs' (expand_pass buf widthBytes row pass line bytes)
          widthBytes bytes
      | none => (.failed .panicked, s', evs')

/-- The non-interlaced loop of `next_frame` (mod.rs lines 199-202): write
each row at the running offset. -/
def frameLoopN (info : Info) (t : Transformations) :
    Nat → Reader → List DecEvent → List Nat → Nat →
    FrameResult × Reader × List DecEvent
  | 0, s, evs, _, _ => (.outOfFuel, s, evs)
  | fuel + 1, s, evs, buf, len =>
    match next_interlaced_row info t s evs with
    | (.error e, s', evs') => (.failed e, s', evs')
    | (.ok none, s', evs') => (.done buf, s', evs')
    | (.ok (some (row, _)), s', evs') =>
      frameLoopN info t fuel s' evs' (writeSeg buf len row)
        (len + min row.length (buf.length - len))

/-- `Reader::next_frame` (mod.rs lines 183-205): reject a too-small caller
buffer up front, then drive the rows into it. -/
def next_frame (info : Info) (t : Transformations) (fuel : Nat) (s : Reader)
    (evs : List DecEvent) (buf : List Nat) : FrameResult × Reader × List DecEvent :=
  let color_type := (output_color_type t info).1
  let width := info.width
  if buf.length < output_buffer_size t info then
    (.failed (.dec (.other "supplied buffer is too small to hold the image")), s, evs)
  else if info.interlaced then
    frameLoopI info t fuel s evs buf (width * color_type.samples) color_type.samples
  else
    frameLoopN info t fuel s evs buf 0

/-! ## Error classification: the row pipeline never produces `Other` -/

theorem unpackGo_error (buf : List Nat) (d : Nat)
    (writer : Nat → Except Failure (List Nat))
    (hw : ∀ v e, writer v = .error e → e = .panicked) :
    ∀ n e, unpackGo buf d writer n = .error e → e = .panicked := by
  intro n
  induction n with
  | zero => intro e h; simp [unpackGo] at h
  | succ j ih =>
    intro e h
    rw [unpackGo] at h
    cases hpre : unpackGo buf d writer j with
    | error e1 =>
      rw [hpre] at h
      injection h with h
      subst h
      exact ih e1 hpre
    | ok pre =>
      rw [hpre] at h
      cases hwv : writer (sampleAt buf d j) with
      | error e2 =>
        rw [hwv] at h
        injection h with h
        subst h
        exact hw _ e2 hwv
      | ok chunk => rw [hwv] at h; simp at h

theorem unpack_bits_error (buf : List Nat) (channels d : Nat)
    (writer : Nat → Except Failure (List Nat))
    (hw : ∀ v e, writer v = .error e → e = .panicked)
    (e : Failure) (h : unpack_bits buf channels d writer = .error e) : e = .panicked := by
  unfold unpack_bits at h
  cases hg : unpackGo buf d writer (buf.length / channels) with
  | error e1 =>
    simp only [hg, Except.error.injEq] at h
    subst h
    exact unpackGo_error buf d writer hw _ e1 hg
  | ok out => simp only [hg] at h; simp at h

theorem palettedWriter_error (palette trns : List Nat) (useTrns : Bool) :
    ∀ v e, palettedWriter palette trns useTrns v = .error e → e = .panicked := by
  intro v e h
  unfold palettedWriter at h
  split at h
  · split at h <;> simp at h
  · injection h with h
    exact h.symm

theorem expand_paletted_error (info : Info) (l : List Nat) (e : Failure)
    (h : expand_paletted info l = .error e) : e = .panicked := by
  unfold expand_paletted at h
  cases hp : info.palette with
  | none =>
    rw [hp] at h
    injection h with h
    exact h.symm
  | some palette =>
    rw [hp] at h
    cases ht : info.trns with
    | some trns =>
      rw [ht] at h
      exact unpack_bits_error _ _ _ _ (palettedWriter_error palette trns true) e h
    | none =>
      rw [ht] at h
      exact unpack_bits_error _ _ _ _ (palettedWriter_error palette [] false) e h

theorem expand_gray_u8_error (info : Info) (l : List Nat) (e : Failure)
    (h : expand_gray_u8 info l = .error e) : e = .panicked := by
  unfold expand_gray_u8 at h
  cases ht : info.trns with
  | some trns =>
    rw [ht] at h
    cases trns with
    | nil =>
      injection h with h
      exact h.symm
    | cons t0 rest =>
      exact unpack_bits_error _ _ _ _ (by intro v e' h'; simp at h') e h
  | none =>
    rw [ht] at h
    exact unpack_bits_error _ _ _ _ (by intro v e' h'; simp at h') e h

theorem expandStage_error (info : Info) (t : Transformations) (l : List Nat)
    (e : Failure) (h : expandStage info t l = .error e) : e = .panicked := by
  unfold expandStage at h
  split at h
  · split at h
    · exact expand_paletted_error info l e h
    · split at h
      · exact expand_gray_u8_error info l e h
      · split at h
        · split at h <;> simp at h
        · simp at h
    · split at h
      · exact expand_gray_u8_error info l e h
      · simp at h
    · split at h
      · split at h <;> simp at h
      · simp at h
    · simp at h
  · simp at h

/-- `next_raw_interlaced_row` only fails with `Format` or `IoError`. -/
theorem next_raw_no_other (info : Info) (s : Reader) (evs : List DecEvent) (m : String) :
    (next_raw_interlaced_row info s evs).1 ≠ .error (.dec (.other m)) := by
  unfold next_raw_interlaced_row
  split
  · simp
  · split
    · simp
    · split
      · simp
      · simp
      · rename_i er _ _ _ _
        cases er <;> simp [UpstreamError.toDecodingError]
      · simp
      · simp

/-- `next_interlaced_row` never fails with an `Other` error: its own errors
are `Format` ones or panics, and forwarded upstream errors are `Format` or
`IoError` (spec §7). -/
theorem next_interlaced_no_other (info : Info) (t : Transformations) (s : Reader)
    (evs : List DecEvent) (m : String) :
    (next_interlaced_row info t s evs).1 ≠ .error (.dec (.other m)) := by
  unfold next_interlaced_row
  split
  · exact next_raw_no_other info s evs m
  · have hraw := next_raw_no_other info s evs m
    rcases hn : next_raw_interlaced_row info s evs with ⟨res, s1, evs1⟩
    rw [hn] at hraw
    cases res with
    | error e =>
      simpa using hraw
    | ok o =>
      cases o with
      | none => simp
      | some rm =>
        obtain ⟨row0, meta0⟩ := rm
        cases hs : expandStage info t (pipelinePre t info s1.processed row0 meta0) with
        | error e0 =>
          simp only [hs]
          have := expandStage_error info t _ e0 hs
          subst this
          simp
        | ok p2 => simp only [hs]; simp

theorem frameLoopN_no_other (info : Info) (t : Transformations) (m : String) :
    ∀ fuel s evs buf len,
      (frameLoopN info t fuel s evs buf len).1 ≠
        .failed (.dec (.other m)) := by
  intro fuel
  induction fuel with
  | zero => intro s evs buf len; simp [frameLoopN]
  | succ f ih =>
    intro s evs buf len
    rw [frameLoopN]
    have hno := next_interlaced_no_other info t s evs m
    rcases hn : next_interlaced_row info t s evs with ⟨res, s1, evs1⟩
    rw [hn] at hno
    cases res with
    | error e =>
      simp only []
      intro hcon
      injection hcon with hcon
      subst hcon
      exact hno rfl
    | ok o =>
      cases o with
      | none => simp
      | some rm =>
        obtain ⟨row0, meta0⟩ := rm
        exact ih _ _ _ _

theorem frameLoopI_no_other (info : Info) (t : Transformations) (m : String) :
    ∀ fuel s evs buf wb b,
      (frameLoopI info t fuel s evs buf wb b).1 ≠
        .failed (.dec (.other m)) := by
  intro fuel
  induction fuel with
  | zero => intro s evs buf wb b; simp [frameLoopI]
  | succ f ih =>
    intro s evs buf wb b
    rw [frameLoopI]
    have hno := next_interlaced_no_other info t s evs m
    rcases hn : next_interlaced_row info t s evs with ⟨res, s1, evs1⟩
    rw [hn] at hno
    cases res with
    | error e =>
      simp only []
      intro hcon
      injection hcon with hcon
      subst hcon
      exact hno rfl
    | ok o =>
      cases o with
      | none => simp
      | some rm =>
        obtain ⟨row0, meta0⟩ := rm
        cases meta0 with
        | some pd =>
          obtain ⟨pass, line, w⟩ := pd
          exact ih _ _ _ _ _
        | none => simp

/-- C7: `next_frame` fails with `Other("supplied buffer is too small to hold
the image")` exactly when the caller's buffer is shorter than
`output_buffer_size()`, and in that case it returns before consuming any
image data, leaving the reader state and upstream untouched. -/
theorem claim_C7_buffer_too_small (info : Info) (t : Transformations) (fuel : Nat)
    (s : Reader) (evs : List DecEvent) (buf : List Nat) :
    (buf.length < output_buffer_size t info →
      next_frame info t fuel s evs buf =
        (.failed (.dec (.other "supplied buffer is too small to hold the image")), s, evs)) ∧
    (output_buffer_size t info ≤ buf.length →
      (next_frame info t fuel s evs buf).1 ≠
        .failed (.dec (.other "supplied buffer is too small to hold the image"))) := by
  constructor
  · intro hlt
    unfold next_frame
    rw [if_pos hlt]
  · intro hge
    unfold next_frame
    rw [if_neg (by omega)]
    split
    · exact frameLoopI_no_other info t _ fuel s evs buf _ _
    · exact frameLoopN_no_other info t _ fuel s evs buf 0

/-- C7 witness: a concrete 2x1 image with an empty caller buffer is
rejected up front with the `Other` error and an unchanged reader. -/
theorem claim_C7_buffer_too_small_witness :
    next_frame ⟨2, 1, .grayscale, 8, false, none, none⟩ .identity 5
      ⟨false, 1, 3, none, [0, 0, 0], [], [0, 0]⟩ [.imageData [0, 7, 9]] [] =
      (.failed (.dec (.other "supplied buffer is too small to hold the image")),
        ⟨false, 1, 3, none, [0, 0, 0], [], [0, 0]⟩, [.imageData [0, 7, 9]]) :=
  (claim_C7_buffer_too_small ⟨2, 1, .grayscale, 8, false, none, none⟩ .identity 5
    ⟨false, 1, 3, none, [0, 0, 0], [], [0, 0]⟩ [.imageData [0, 7, 9]] []).1
    (by decide)

/-- C9: with EXPAND set, an Indexed image whose parsed header carries no
palette makes `next_interlaced_row` panic inside `expand_paletted` instead
of returning a `Format` error, whenever the raw row driver yields a row. -/
theorem claim_C9_missing_palette_panics (info : Info) (t : Transformations)
    (s s1 : Reader) (evs evs1 : List DecEvent) (row : List Nat)
    (meta : Option (Nat × Nat × Nat))
    (hct : info.color_type = .indexed)
    (hpal : info.palette = none)
    (hexp : t.expand = true)
    (hraw : next_raw_interlaced_row info s evs = (.ok (some (row, meta)), s1, evs1)) :
    (next_interlaced_row info t s evs).1 = .error .panicked ∧
    ∀ msg, (next_interlaced_row info t s evs).1 ≠ .error (.dec (.format msg)) := by
  have hident : t ≠ .identity := by
    intro h
    rw [h] at hexp
    simp [Transformations.identity] at hexp
  have hstage : ∀ l, expandStage info t l = .error .panicked := by
    intro l
    unfold expandStage expand_paletted
    simp [hexp, hct, hpal]
  unfold next_interlaced_row
  rw [hraw]
  simp [hident, hstage]

/-- C9 witness: a concrete 2-bit Indexed header with no palette panics under
EXPAND. -/
theorem claim_C9_missing_palette_panics_witness :
    (next_interlaced_row ⟨4, 1, .indexed, 2, false, none, none⟩ ⟨true, false, false⟩
      ⟨false, 1, 2, none, [0, 0], [], List.replicate 16 0⟩ [.imageData [0, 0x1B]]).1 =
      .error .panicked ∧
    ∀ msg, (next_interlaced_row ⟨4, 1, .indexed, 2, false, none, none⟩ ⟨true, false, false⟩
      ⟨false, 1, 2, none, [0, 0], [], List.replicate 16 0⟩ [.imageData [0, 0x1B]]).1 ≠
      .error (.dec (.format msg)) :=
  claim_C9_missing_palette_panics ⟨4, 1, .indexed, 2, false, none, none⟩
    ⟨true, false, false⟩ ⟨false, 1, 2, none, [0, 0], [], List.replicate 16 0⟩
    ⟨false, 1, 2, none, [0, 0x1B], [], List.replicate 16 0⟩ [.imageData [0, 0x1B]] []
    [0x1B] none rfl rfl rfl (by rfl)

/-! ## Initialization and the `prev` length invariant (claim C8) -/

/-- `Reader::init` (mod.rs lines 147-176) at the first IDAT chunk begin:
cache `bpp` and the full-image `rowlen`, build the Adam7 iterator for
interlaced images, zero-fill `prev` at the full-image `rowlen`, and
allocate `processed` at `line_size(width)` (`allocate_out_buf`). -/
def initReader (info : Info) (t : Transformations) : Reader where
  eof := false
  bpp := info.bytes_per_pixel
  rowlen := info.raw_row_length
  adam7 := if info.interlaced then some (Adam7.new info.width info.height) else none
  prev := List.replicate info.raw_row_length 0
  current := []
  processed := List.replicate (line_size t info info.width) 0

/-- Run `next_raw_interlaced_row` for up to `n` successful rows, stopping at
the first call that does not yield a row; the result is the reader state at
the start of the next call. -/
def runRaw (info : Info) : Nat → Reader → List DecEvent → Reader × List DecEvent
  | 0, s, evs => (s, evs)
  | n + 1, s, evs =>
    match next_raw_interlaced_row info s evs with
    | (.ok (some _), s', evs') => runRaw info n s' evs'
    | _ => (s, evs)

theorem raw_row_length_from_width_mono (info : Info) {w1 w2 : Nat} (h : w1 ≤ w2) :
    info.raw_row_length_from_width w1 ≤ info.raw_row_length_from_width w2 := by
  unfold Info.raw_row_length_from_width
  have h1 := Nat.mul_le_mul_right info.bits_per_pixel h
  have h2 := Nat.div_le_div_right (c := 8)
    (show w1 * info.bits_per_pixel + 7 ≤ w2 * info.bits_per_pixel + 7 by omega)
  omega

/-- After a yield of `assembleRow`, the copy of `current[..rowlen]` into
`prev[..rowlen]` leaves `prev` of length `max rowlen prev.length`. -/
theorem assembleRow_yield_prev (rowlen bpp : Nat) (prev cur : List Nat)
    (evs evs' : List DecEvent) (row p c : List Nat)
    (hlen : rowlen ≤ cur.length)
    (h : assembleRow rowlen bpp prev cur evs = .yielded row p c evs') :
    p.length = max rowlen prev.length := by
  unfold assembleRow at h
  simp only [List.headD_eq_head?_getD] at h
  by_cases hf : cur.head?.getD 0 ≤ 4
  · simp only [hf, if_true] at h
    injection h with h1 h2 h3 h4
    subst h2
    simp [unfilter_length, List.length_take, List.length_append, List.length_drop]
    omega
  · simp [hf] at h

theorem rowLoopGo_yield_prev (rowlen bpp : Nat) (prev : List Nat) :
    ∀ evs cur row p c evs', rowLoopGo rowlen bpp prev evs cur = .yielded row p c evs' →
      p.length = max rowlen prev.length := by
  intro evs
  induction evs with
  | nil =>
    intro cur row p c evs' h
    simp only [rowLoopGo] at h
    by_cases hlen : rowlen ≤ cur.length
    · simp only [hlen, if_true] at h
      exact assembleRow_yield_prev rowlen bpp prev cur [] evs' row p c hlen h
    · simp only [hlen, if_false] at h
      split at h <;> simp at h
  | cons e rest ih =>
    intro cur row p c evs' h
    simp only [rowLoopGo] at h
    by_cases hlen : rowlen ≤ cur.length
    · simp only [hlen, if_true] at h
      exact assembleRow_yield_prev rowlen bpp prev cur (e :: rest) evs' row p c hlen h
    · simp only [hlen, if_false] at h
      cases e with
      | imageData d => exact ih (cur ++ d) row p c evs' h
      | otherEvent => exact ih cur row p c evs' h
      | failed er => simp at h

/-- Full characterization of a successful `rawPre`: either no iterator (the
cached `rowlen`, state unchanged), or an iterator step with the reset of
`prev` exactly on a pass change. -/
theorem rawPre_cases (info : Info) (s : Reader) (rowlen : Nat)
    (meta : Option (Nat × Nat × Nat)) (s1 : Reader)
    (h : rawPre info s = some (rowlen, meta, s1)) :
    (s.adam7 = none ∧ meta = none ∧ rowlen = s.rowlen ∧ s1 = s) ∨
    (∃ a pass line w a', s.adam7 = some a ∧ a.next = some ((pass, line, w), a') ∧
      meta = some (pass, line, w) ∧ rowlen = info.raw_row_length_from_width w ∧
      s1 = { s with
             adam7 := some a',
             prev := (if a.currentPass ≠ pass then
               List.replicate (info.raw_row_length_from_width w) 0 else s.prev) }) := by
  unfold rawPre at h
  cases ha : s.adam7 with
  | none =>
    simp only [ha, Option.some.injEq, Prod.mk.injEq] at h
    obtain ⟨h1, h2, h3⟩ := h
    exact Or.inl ⟨rfl, h2.symm, h1.symm, h3.symm⟩
  | some a =>
    simp only [ha] at h
    cases hn : a.next with
    | none => simp only [hn] at h; exact absurd h (by simp)
    | some v =>
      obtain ⟨⟨pass, line, len⟩, a'⟩ := v
      simp only [hn, Option.some.injEq, Prod.mk.injEq] at h
      obtain ⟨h1, h2, h3⟩ := h
      exact Or.inr ⟨a, pass, line, len, a', rfl, hn, h2.symm, h1.symm, h3.symm⟩

/-- Full characterization of a row yield of `next_raw_interlaced_row`:
the `rawPre` step followed by a loop yield, with the final state's `prev`
and `current` those of the yield. -/
theorem next_raw_yield_state (info : Info) (s s' : Reader) (evs evs' : List DecEvent)
    (row : List Nat) (meta : Option (Nat × Nat × Nat))
    (h : next_raw_interlaced_row info s evs = (.ok (some (row, meta)), s', evs')) :
    ∃ rowlen s1 prev' cur',
      rawPre info s = some (rowlen, meta, s1) ∧
      rowLoop rowlen s1.bpp s1.prev s1.current evs = .yielded row prev' cur' evs' ∧
      s' = { s1 with prev := prev', current := cur' } := by
  unfold next_raw_interlaced_row at h
  cases hb : s.eof with
  | true => simp [hb] at h
  | false =>
    simp only [hb] at h
    rw [if_neg Bool.false_ne_true] at h
    cases hp : rawPre info s with
    | none => simp only [hp] at h; simp at h
    | some v =>
      obtain ⟨rowlen, passdata, s1⟩ := v
      simp only [hp] at h
      cases hl : rowLoop rowlen s1.bpp s1.prev s1.current evs with
      | yielded r pr cu e' =>
        simp only [hl, Prod.mk.injEq, Except.ok.injEq, Option.some.injEq, and_assoc] at h
        obtain ⟨hr, hm, h2, h3⟩ := h
        subst hr
        subst hm
        subst h3
        exact ⟨rowlen, s1, pr, cu, rfl, hl, h2.symm⟩
      | badFilter n pr cu e' => simp only [hl] at h; simp at h
      | upstreamFailed er pr cu e' => simp only [hl] at h; simp at h
      | truncated pr cu => simp only [hl] at h; simp at h
      | cleanEnd pr => simp only [hl] at h; simp at h

/-- The reachable-state invariant behind claim C8: `rowlen` caches the
full-image raw row length; without an iterator `prev` has exactly that
length; with an iterator at pass 1 `prev` still has the full-image length
from init, and at passes 2..7 exactly the pass's raw row length. -/
def Inv (info : Info) (s : Reader) : Prop :=
  s.rowlen = info.raw_row_length ∧
  (s.adam7 = none → s.prev.length = info.raw_row_length) ∧
  (∀ a, s.adam7 = some a → a.width = info.width ∧ a.height = info.height ∧
    1 ≤ a.currentPass ∧
    s.prev.length = (if a.currentPass = 1 then info.raw_row_length
      else info.raw_row_length_from_width (passWidth info.width a.currentPass)))

theorem initReader_Inv (info : Info) (t : Transformations) :
    Inv info (initReader info t) := by
  unfold Inv initReader Adam7.new
  by_cases hi : info.interlaced = true <;> simp [hi]

theorem Inv_step (info : Info) (s s' : Reader) (evs evs' : List DecEvent)
    (row : List Nat) (meta : Option (Nat × Nat × Nat))
    (hInv : Inv info s)
    (h : next_raw_interlaced_row info s evs = (.ok (some (row, meta)), s', evs')) :
    Inv info s' := by
  obtain ⟨rowlen, s1, prev', cur', hp, hl, hs'⟩ :=
    next_raw_yield_state info s s' evs evs' row meta h
  have hprev' : prev'.length = max rowlen s1.prev.length :=
    rowLoopGo_yield_prev rowlen s1.bpp s1.prev evs s1.current row prev' cur' evs' hl
  obtain ⟨hrl, hnone, hsome⟩ := hInv
  rcases rawPre_cases info s rowlen meta s1 hp with ⟨ha, _, hr, hs1⟩ |
    ⟨a, pass, line, w, a', ha, hnx, _, hr, hs1⟩
  · have hs1prev : s1.prev = s.prev := by rw [hs1]
    have hs'2 : s' = { s with prev := prev', current := cur' } := by
      rw [hs', hs1]
    rw [hs1prev] at hprev'
    subst hs'2
    refine ⟨hrl, fun _ => ?_, fun a2 ha2 => ?_⟩
    · show prev'.length = info.raw_row_length
      rw [hprev', hnone ha, hr, hrl]
      omega
    · have ha2' : s.adam7 = some a2 := ha2
      rw [ha] at ha2'
      exact absurd ha2' (by simp)
  · obtain ⟨hple, hw, hwpos, hline, ha'⟩ := adam7_next_shape a pass line w a' hnx
    obtain ⟨haw, hah, hacp, haprev⟩ := hsome a ha
    have hs1prev : s1.prev = (if a.currentPass ≠ pass then
        List.replicate (info.raw_row_length_from_width w) 0 else s.prev) := by
      rw [hs1]
    have hs'2 : s' = { s with adam7 := some a', prev := prev', current := cur' } := by
      rw [hs', hs1]
    rw [hs1prev] at hprev'
    subst hs'2
    refine ⟨hrl, fun hc => ?_, fun a2 ha2 => ?_⟩
    · have hc' : (some a' : Option Adam7) = none := hc
      exact absurd hc' (by simp)
    · have ha2' : (some a' : Option Adam7) = some a2 := ha2
      have ha2a' : a2 = a' := by
        injection ha2'.symm
      subst ha2a'
      subst ha'
      refine ⟨haw, hah, by change 1 ≤ pass; omega, ?_⟩
      show prev'.length = (if pass = 1 then info.raw_row_length
        else info.raw_row_length_from_width (passWidth info.width pass))
      by_cases hsame : a.currentPass = pass
      · rw [hsame] at haprev
        simp only [hsame, ne_eq, not_true_eq_false, if_false] at hprev'
        by_cases h1 : pass = 1
        · rw [if_pos h1]
          rw [if_pos h1] at haprev
          have hle2 : rowlen ≤ info.raw_row_length := by
            rw [hr, hw, haw]
            exact raw_row_length_from_width_mono info (passWidth_le info.width pass)
          rw [hprev', haprev]
          omega
        · rw [if_neg h1]
          rw [if_neg h1] at haprev
          have heq2 : rowlen = info.raw_row_length_from_width (passWidth info.width pass) := by
            rw [hr, hw, haw]
          rw [hprev', haprev, ← heq2]
          omega
      · have hpass2 : pass ≠ 1 := by omega
        rw [if_neg hpass2]
        simp only [ne_eq, hsame, not_false_eq_true, if_true, List.length_replicate] at hprev'
        have heq2 : rowlen = info.raw_row_length_from_width (passWidth info.width pass) := by
          rw [hr, hw, haw]
        rw [hprev', ← hr, ← heq2]
        omega

theorem runRaw_Inv (info : Info) :
    ∀ n s evs, Inv info s → Inv info (runRaw info n s evs).1 := by
  intro n
  induction n with
  | zero => intro s evs h; exact h
  | succ m ih =>
    intro s evs h
    rw [runRaw]
    rcases hx : next_raw_interlaced_row info s evs with ⟨res, s', evs'⟩
    cases res with
    | error e => exact h
    | ok o =>
      cases o with
      | none => exact h
      | some v =>
        obtain ⟨row, meta⟩ := v
        exact ih s' evs' (Inv_step info s s' evs evs' row meta h hx)

/-- C8 amended: at the start of every row assembly from an initialized
reader, `prev.len()` is at least the filtered row length `rowlen` of the
current pass, with equality for non-interlaced images and for every
interlaced pass from the second on; during the first interlaced pass `prev`
keeps the full-image rowlen set by init (which can exceed the pass rowlen).
Whenever the Adam7 iterator advances to a new pass, `prev` is exactly the
new pass's `rowlen` zero bytes. -/
theorem claim_C8_prev_matches_rowlen (info : Info) (t : Transformations) (n : Nat)
    (evs : List DecEvent) (rowlen : Nat) (meta : Option (Nat × Nat × Nat)) (s1 : Reader)
    (hpre : rawPre info (runRaw info n (initReader info t) evs).1 = some (rowlen, meta, s1)) :
    rowlen ≤ s1.prev.length ∧
    ((runRaw info n (initReader info t) evs).1.adam7 = none → s1.prev.length = rowlen) ∧
    (∀ pass line w, meta = some (pass, line, w) → 2 ≤ pass → s1.prev.length = rowlen) ∧
    (∀ a pass line w, (runRaw info n (initReader info t) evs).1.adam7 = some a →
      meta = some (pass, line, w) → a.currentPass ≠ pass →
      s1.prev = List.replicate rowlen 0) := by
  have hInv : Inv info (runRaw info n (initReader info t) evs).1 :=
    runRaw_Inv info n (initReader info t) evs (initReader_Inv info t)
  obtain ⟨hrl, hnone, hsome⟩ := hInv
  rcases rawPre_cases info (runRaw info n (initReader info t) evs).1 rowlen meta s1 hpre with
    ⟨ha, hm, hr, hs1⟩ | ⟨a, pass, line, w, a', ha, hnx, hm, hr, hs1⟩
  · have hlen : s1.prev.length = rowlen := by
      rw [hs1, hnone ha, hr, hrl]
    refine ⟨le_of_eq hlen.symm, fun _ => hlen, ?_, ?_⟩
    · intro pass line w hm2 _
      rw [hm] at hm2
      exact absurd hm2 (by simp)
    · intro a2 pass2 line2 w2 ha2 _ _
      rw [ha] at ha2
      exact absurd ha2 (by simp)
  · obtain ⟨hple, hw, hwpos, hline, ha'⟩ := adam7_next_shape a pass line w a' hnx
    obtain ⟨haw, hah, hacp, haprev⟩ := hsome a ha
    have hs1prev : s1.prev = (if a.currentPass ≠ pass then
        List.replicate (info.raw_row_length_from_width w) 0 else
        (runRaw info n (initReader info t) evs).1.prev) := by
      rw [hs1]
    by_cases hsame : a.currentPass = pass
    · have hs1prev' : s1.prev = (runRaw info n (initReader info t) evs).1.prev := by
        rw [hs1prev]
        simp [hsame]
      rw [hsame] at haprev
      have hkey : s1.prev.length =
          (if pass = 1 then info.raw_row_length
            else info.raw_row_length_from_width (passWidth info.width pass)) := by
        rw [hs1prev', haprev]
      refine ⟨?_, ?_, ?_, ?_⟩
      · rw [hkey, hr, hw, haw]
        by_cases h1 : pass = 1
        · rw [if_pos h1]
          unfold Info.raw_row_length
          exact raw_row_length_from_width_mono info (passWidth_le info.width pass)
        · rw [if_neg h1]
      · intro hnone2
        rw [ha] at hnone2
        exact absurd hnone2 (by simp)
      · intro pass2 line2 w2 hm2 h2
        rw [hm] at hm2
        injection hm2 with hm2
        injection hm2 with hpass2 hm2
        injection hm2 with hline2 hw2
        subst hpass2
        rw [hkey, if_neg (by omega), hr, hw, haw]
      · intro a2 pass2 line2 w2 ha2 hm2 hne
        rw [ha] at ha2
        injection ha2 with ha2
        subst ha2
        rw [hm] at hm2
        injection hm2 with hm2
        injection hm2 with hpass2 hm2
        subst hpass2
        exact absurd hsame hne
    · have hs1prev' : s1.prev = List.replicate (info.raw_row_length_from_width w) 0 := by
        rw [hs1prev]
        simp [hsame]
      have hlen : s1.prev.length = rowlen := by
        rw [hs1prev', List.length_replicate, hr]
      have hrep : s1.prev = List.replicate rowlen 0 := by
        rw [hs1prev', hr]
      exact ⟨le_of_eq hlen.symm, fun _ => hlen, fun _ _ _ _ _ => hlen,
        fun _ _ _ _ _ _ _ => hrep⟩

/-- C8 counterexample to the claim as stated: a 16x16 8-bit grayscale
interlaced image.  At the very first row assembly the pass-1 `rowlen` is 3
but `prev` still has the full-image length 17 from init, because the Adam7
iterator starts at pass 1 and so no pass change is detected. -/
theorem claim_C8_counterexample :
    (rawPre ⟨16, 16, .grayscale, 8, true, none, none⟩
      (initReader ⟨16, 16, .grayscale, 8, true, none, none⟩ ⟨false, false, false⟩)).map
      (fun x => (x.1, x.2.2.prev.length)) = some (3, 17) ∧ (3 : Nat) ≠ 17 :=
  ⟨by rfl, by decide⟩

/-- C8 witness for the amended claim, at a concrete non-interlaced 2x1
image after zero rows. -/
theorem claim_C8_prev_matches_rowlen_witness :
    (3 : Nat) ≤ (⟨false, 1, 3, none, [0, 0, 0], [], [0, 0]⟩ : Reader).prev.length ∧
    ((runRaw ⟨2, 1, .grayscale, 8, false, none, none⟩ 0
        (initReader ⟨2, 1, .grayscale, 8, false, none, none⟩ .identity) []).1.adam7 = none →
      (⟨false, 1, 3, none, [0, 0, 0], [], [0, 0]⟩ : Reader).prev.length = 3) ∧
    (∀ pass line w, (none : Option (Nat × Nat × Nat)) = some (pass, line, w) → 2 ≤ pass →
      (⟨false, 1, 3, none, [0, 0, 0], [], [0, 0]⟩ : Reader).prev.length = 3) ∧
    (∀ a pass line w,
      (runRaw ⟨2, 1, .grayscale, 8, false, none, none⟩ 0
        (initReader ⟨2, 1, .grayscale, 8, false, none, none⟩ .identity) []).1.adam7 = some a →
      (none : Option (Nat × Nat × Nat)) = some (pass, line, w) → a.currentPass ≠ pass →
      (⟨false, 1, 3, none, [0, 0, 0], [], [0, 0]⟩ : Reader).prev = List.replicate 3 0) :=
  claim_C8_prev_matches_rowlen ⟨2, 1, .grayscale, 8, false, none, none⟩ .identity 0 []
    3 none ⟨false, 1, 3, none, [0, 0, 0], [], [0, 0]⟩ (by rfl)

/-! ## The chunk driver (`decode_next`, mod.rs lines 484-506) -/

/-- The events of the low-level `Decoded` sum the chunk driver dispatches
on: `Nothing`, image data, `ImageEnd`, or any other event (spec §6.2). -/
inductive LowDecoded
  | nothing
  | imageData (d : List Nat)
  | imageEnd
  | otherLow
deriving DecidableEq, Repr

/-- Modelled from the spec: the streaming parser (`StreamingDecoder`,
stream.rs is not part of the given sources), as a script of
(bytes-to-consume, event) steps.  `update(input) → (bytes_consumed, event)`
consumes bytes from the input slice to produce events (§6.2); on an empty
input slice it can consume nothing and yields no event, i.e.
`(0, Nothing)`. -/
abbrev SParser := List (Nat × LowDecoded)

/-- Modelled from the spec: `StreamingDecoder::update` over the script
model: with enough input, perform the next scripted step; otherwise consume
the remaining input and yield `Nothing`. -/
def sUpdate (p : SParser) (input : List Nat) : SParser × Nat × LowDecoded :=
  match p with
  | (n, ev) :: rest =>
    if 0 < input.length ∧ n ≤ input.length then (rest, n, ev)
    else (p, input.length, .nothing)
  | [] => (p, input.length, .nothing)

/-- The chunk driver's state: the fixed read buffer with its `pos`/`end`
cursors, the upstream reader modelled as the list of its remaining
successful reads (empty list: `read` returns 0 bytes, i.e. EOF), and the
parser. -/
structure ChunkState where
  pos : Nat
  end_ : Nat
  buf : List Nat
  reads : List (List Nat)
  parser : SParser
deriving DecidableEq

/-- The refill `*end = try!(r.read(buf)); *pos = 0;` (mod.rs lines
489-491): at EOF the reader returns 0 bytes, so `end` becomes 0. -/
def refill (st : ChunkState) : ChunkState :=
  match st.reads with
  | [] => { st with end_ := 0, pos := 0 }
  | r :: rest => { st with buf := r, end_ := r.length, pos := 0, reads := rest }

/-- `decode_next` (mod.rs lines 484-506) with a fuel bound on its loop:
`none` means the loop ran the whole fuel without returning.  Each iteration
refills when `pos == end`, feeds `buf[pos..end]` to the parser, advances
`pos` on `Nothing` and loops, returns `Ok(None)` on `ImageEnd` and the
event otherwise. -/
def decode_next : Nat → ChunkState → Option (Option LowDecoded × ChunkState)
  | 0, _ => none
  | fuel + 1, st =>
    let st1 := if st.pos = st.end_ then refill st else st
    let input := (st1.buf.drop st1.pos).take (st1.end_ - st1.pos)
    let r := sUpdate st1.parser input
    match r.2.2 with
    | .nothing => decode_next fuel { st1 with pos := st1.pos + r.2.1, parser := r.1 }
    | .imageEnd => some (none, { st1 with parser := r.1 })
    | ev => some (some ev, { st1 with pos := st1.pos + r.2.1, parser := r.1 })

/-- With no buffered content and the upstream at EOF, one `decode_next`
iteration returns to exactly the same state. -/
theorem decode_next_stuck_step (p : SParser) (buf : List Nat) (fuel k : Nat) :
    decode_next (fuel + 1) ⟨k, k, buf, [], p⟩ = decode_next fuel ⟨0, 0, buf, [], p⟩ := by
  cases p with
  | nil =>
    rw [decode_next]
    simp [refill, sUpdate]
  | cons hd rest =>
    obtain ⟨n, ev⟩ := hd
    rw [decode_next]
    simp [refill, sUpdate]

/-- C5 (divergence witness): with `pos == end` and an upstream reader at
end of stream (every refill reads zero bytes) while the parser is mid
stream, `decode_next` never returns, for every loop bound: the source has
no zero-refill check, so the claimed premature-end treatment is absent. -/
theorem claim_C5_zero_refill_loops_forever (fuel k : Nat) (p : SParser) (buf : List Nat) :
    decode_next fuel ⟨k, k, buf, [], p⟩ = none := by
  have hzero : ∀ f, decode_next f ⟨0, 0, buf, [], p⟩ = none := by
    intro f
    induction f with
    | zero => rfl
    | succ g ih => rw [decode_next_stuck_step, ih]
  cases fuel with
  | zero => rfl
  | succ f => rw [decode_next_stuck_step, hzero]

end PngCore
